import Mathlib

/-!
Verification development for the `thynkai` CLI
(`src/packages/cli/src/index.ts` of thynk-ai/thynkai-toolkits).

The TypeScript source is shallowly embedded: strings are processed as
`List Char`, the filesystem is an association list from full paths to file
data, JavaScript exceptions become `Except`, and each command handler is a
pure Lean function mirroring the source line by line.  Host primitives that
are not part of the repository (the `Date.parse` grammar behind `isIsoDate`,
the JSON grammar behind `JSON.parse`) are abstracted: the date check is a
parameter, and a file is represented by its parse result (or as unparseable
text).
-/

namespace ThynkCLI

/-! ## Character-list utilities (JS string primitives) -/

/-- Path separator characters recognised by the split regex `/\\|\//`. -/
def isSep (c : Char) : Bool := c == '/' || c == '\\'

/-- `String.prototype.startsWith`: does `s` begin with `p`? -/
def startsWithL : List Char → List Char → Bool
  | _, [] => true
  | [], _ :: _ => false
  | c :: cs, p :: ps => c == p && startsWithL cs ps

/-- `String.prototype.endsWith`: does `s` end with `t`? -/
def endsWithL (s t : List Char) : Bool := startsWithL s.reverse t.reverse

/-- `String.prototype.split` on a character class: splits at every
separator character, keeping empty pieces, as JS does. -/
def splitBy (p : Char → Bool) : List Char → List (List Char)
  | [] => [[]]
  | c :: rest =>
    match splitBy p rest with
    | [] => [[]]
    | g :: gs => if p c then [] :: g :: gs else (c :: g) :: gs

/-- `String.prototype.includes` for a fixed needle (used to embed the
substring test of the regex `/versions[\\/]/`). -/
def hasSub (needle : List Char) : List Char → Bool
  | [] => startsWithL [] needle
  | c :: rest => startsWithL (c :: rest) needle || hasSub needle rest

/-- `s.replace(/suf$/, rep)`: replace a literal suffix when present,
otherwise return the string unchanged. -/
def replTail (cs suf rep : List Char) : List Char :=
  if endsWithL cs suf then cs.take (cs.length - suf.length) ++ rep else cs

/-- JS `indexOf` on an array, as an optional index of the first hit. -/
def idxFind (p : String → Bool) : List String → Option Nat
  | [] => none
  | a :: l => if p a then some 0 else (idxFind p l).map (· + 1)

/-- JS array indexing `xs[i]`, `undefined` out of range. -/
def nth : List α → Nat → Option α
  | [], _ => none
  | a :: _, 0 => some a
  | _ :: l, n + 1 => nth l n

/-! ## String-level wrappers -/

/-- `String.prototype.startsWith`. -/
def startsWithS (s pre : String) : Bool := startsWithL s.data pre.data

/-- `String.prototype.endsWith`. -/
def endsWithS (s suf : String) : Bool := endsWithL s.data suf.data

/-- `mf.split(/\\|\//)` — split on both separators. -/
def splitSepsS (s : String) : List String := (splitBy isSep s.data).map String.mk

/-- `vf.split("/")` — split on forward slashes only. -/
def splitSlashS (s : String) : List String := (splitBy (· == '/') s.data).map String.mk

/-- `/versions[\\/]/.test(p)`. -/
def hasVersionsSegS (p : String) : Bool :=
  hasSub "versions/".data p.data || hasSub "versions\\".data p.data

/-- `s.replace(/suf$/, rep)` at the string level. -/
def replaceTailS (s suf rep : String) : String := String.mk (replTail s.data suf.data rep.data)

/-- `p.replace(/\\/g, "/")` — normalise backslashes to forward slashes. -/
def normSlash (s : String) : String :=
  String.mk (s.data.map (fun c => if c == '\\' then '/' else c))

/-- `node:path.join` restricted to already-normalised segments (the only
shape this CLI produces): plain separator concatenation. -/
def joinP (a b : String) : String := a ++ "/" ++ b

/-- The set of code points ECMAScript `String.prototype.trim` strips:
WhiteSpace (TAB U+0009, VT U+000B, FF U+000C, SP U+0020, NBSP U+00A0,
ZWNBSP U+FEFF, and the Unicode Zs category: U+1680, U+2000–U+200A,
U+202F, U+205F, U+3000) together with LineTerminator (LF U+000A,
CR U+000D, LS U+2028, PS U+2029). -/
def jsWhitespace (c : Char) : Bool :=
  (decide (9 ≤ c.toNat) && decide (c.toNat ≤ 13)) || c.toNat == 32 ||
  c.toNat == 160 || c.toNat == 5760 ||
  (decide (8192 ≤ c.toNat) && decide (c.toNat ≤ 8202)) ||
  c.toNat == 8232 || c.toNat == 8233 || c.toNat == 8239 ||
  c.toNat == 8287 || c.toNat == 12288 || c.toNat == 65279

/-- JS truthiness of `s.trim()`: the string has a character that `trim()`
does not strip, i.e. one outside the ECMAScript whitespace set. -/
def nonBlankS (s : String) : Bool := s.data.any (fun c => !jsWhitespace c)

/-! ## The digest-format check, `SHA256_RE = /^sha256:[0-9a-f]{64}$/i` -/

/-- ASCII case folding on code points, as JS regex `i`-canonicalisation
performs for ASCII patterns. -/
def lowCode (n : Nat) : Nat := if 65 ≤ n ∧ n ≤ 90 then n + 32 else n

/-- Case-insensitive equality of one literal pattern character with one
input character (the `i` flag applied to a literal). -/
def ciEq (a b : Char) : Bool := lowCode a.toNat == lowCode b.toNat

/-- The class `[0-9a-f]` under the `i` flag: digits, `a`–`f`, or `A`–`F`. -/
def hexDigitCI (c : Char) : Bool :=
  (decide (48 ≤ c.toNat) && decide (c.toNat ≤ 57)) ||
  (decide (97 ≤ c.toNat) && decide (c.toNat ≤ 102)) ||
  (decide (65 ≤ c.toNat) && decide (c.toNat ≤ 70))

/-- Match a literal pattern case-insensitively at the head of the input,
returning the rest of the input on success. -/
def ciConsume : List Char → List Char → Option (List Char)
  | [], cs => some cs
  | _ :: _, [] => none
  | p :: ps, c :: cs => if ciEq p c then ciConsume ps cs else none

/-- `SHA256_RE.test`: anchored `sha256:` (case-insensitive, per the `i`
flag on the whole regex) followed by exactly 64 `[0-9a-f]`-class characters
(also case-insensitive). -/
def shaTest (s : String) : Bool :=
  match ciConsume "sha256:".data s.data with
  | some rest => rest.length == 64 && rest.all hexDigitCI
  | none => false

/-- The digest shape as claimed: the prefix `sha256:` in exact lowercase
form, then exactly 64 hex characters of either case.  (Stated from the
claim, for comparison with `shaTest`.) -/
def shaClaim (s : String) : Bool :=
  startsWithL s.data "sha256:".data &&
    (s.data.drop 7).length == 64 && (s.data.drop 7).all hexDigitCI

/-- Spec-level acceptance of the digest check: after ASCII case folding,
the code points are exactly those of `sha256:` followed by a 64-long run of
lowercase-hex code points. -/
def ShaAccepts (s : String) : Prop :=
  ∃ run : List Nat,
    s.data.map (fun c => lowCode c.toNat) = "sha256:".data.map Char.toNat ++ run ∧
    run.length = 64 ∧
    ∀ n ∈ run, (48 ≤ n ∧ n ≤ 57) ∨ (97 ≤ n ∧ n ≤ 102)

/-! ## The SemVer check,
`SEMVER_RE = /^(\d+)\.(\d+)\.(\d+)(?:-([0-9A-Za-z.-]+))?(?:\+([0-9A-Za-z.-]+))?$/` -/

/-- The class `[0-9A-Za-z.-]` of the prerelease/build groups. -/
def svCharOk (c : Char) : Bool := c.isDigit || c.isAlpha || c == '.' || c == '-'

/-- Match `\d+` at the head; on success return the remaining input.
Greediness is exact: the class of the following context never contains a
digit, so the regex engine never backtracks into these groups. -/
def semverNum (cs : List Char) : Option (List Char) :=
  if (cs.takeWhile Char.isDigit).isEmpty then none else some (cs.dropWhile Char.isDigit)

/-- Match `(?:\+([0-9A-Za-z.-]+))?$` after the prerelease group. -/
def semverBuild : List Char → Bool
  | [] => true
  | c2 :: bld => c2 == '+' && !bld.isEmpty && bld.all svCharOk

/-- Match `(?:-([0-9A-Za-z.-]+))?(?:\+([0-9A-Za-z.-]+))?$`.  `+` is not in
the class, so the greedy prerelease group ends exactly at the first `+`. -/
def semverTail : List Char → Bool
  | [] => true
  | c :: rest =>
    if c == '-' then
      (!(rest.takeWhile svCharOk).isEmpty) && semverBuild (rest.dropWhile svCharOk)
    else if c == '+' then !rest.isEmpty && rest.all svCharOk
    else false

/-- `SEMVER_RE.test` on the character list. -/
def semverCore (cs : List Char) : Bool :=
  match semverNum cs with
  | none => false
  | some r1 =>
    match r1 with
    | [] => false
    | c1 :: r2 =>
      c1 == '.' &&
        (match semverNum r2 with
          | none => false
          | some r3 =>
            match r3 with
            | [] => false
            | c2 :: r4 =>
              c2 == '.' &&
                (match semverNum r4 with
                  | none => false
                  | some r5 => semverTail r5))

/-- `SEMVER_RE.test`. -/
def semverTest (s : String) : Bool := semverCore s.data

/-- A character of the prerelease/build charset, spec-level. -/
def SvChar (c : Char) : Prop := c.isDigit = true ∨ c.isAlpha = true ∨ c = '.' ∨ c = '-'

/-- Spec-level shape of the optional `-prerelease` / `+buildmetadata`
tail. -/
def SemVerTailSpec (t : List Char) : Prop :=
  t = [] ∨
  (∃ pre, t = '-' :: pre ∧ pre ≠ [] ∧ ∀ c ∈ pre, SvChar c) ∨
  (∃ pre bld, t = '-' :: pre ++ '+' :: bld ∧ pre ≠ [] ∧ bld ≠ [] ∧
    (∀ c ∈ pre, SvChar c) ∧ (∀ c ∈ bld, SvChar c)) ∨
  (∃ bld, t = '+' :: bld ∧ bld ≠ [] ∧ ∀ c ∈ bld, SvChar c)

/-- Spec-level acceptance of the SemVer check: `MAJOR.MINOR.PATCH`, each a
non-empty digit run (no leading-zero restriction), followed by an optional
`-prerelease` and optional `+buildmetadata` from the charset of
alphanumerics, dots and hyphens, anchored start to end. -/
def SemVerAccepts (s : String) : Prop :=
  ∃ A B C t : List Char,
    s.data = A ++ ('.' :: (B ++ ('.' :: (C ++ t)))) ∧
    A ≠ [] ∧ B ≠ [] ∧ C ≠ [] ∧
    (∀ c ∈ A, c.isDigit = true) ∧ (∀ c ∈ B, c.isDigit = true) ∧
    (∀ c ∈ C, c.isDigit = true) ∧ SemVerTailSpec t

/-! ## Lemmas about the character-list utilities -/

theorem isEmpty_eq_true_iff (l : List α) : l.isEmpty = true ↔ l = [] := by
  cases l <;> simp

theorem mem_takeWhile_pred {p : Char → Bool} {l : List Char} :
    ∀ c ∈ l.takeWhile p, p c = true := by
  induction l with
  | nil => simp
  | cons a l ih =>
    intro c hc
    rw [List.takeWhile_cons] at hc
    by_cases ha : p a = true
    · simp [ha] at hc
      rcases hc with rfl | hc
      · exact ha
      · exact ih c hc
    · simp [Bool.of_not_eq_true ha] at hc

theorem takeWhile_dropWhile_append_of {p : Char → Bool} {xs : List Char}
    (h : ∀ c ∈ xs, p c = true) {y : Char} (hy : p y = false) (ys : List Char) :
    (xs ++ y :: ys).takeWhile p = xs ∧ (xs ++ y :: ys).dropWhile p = y :: ys := by
  induction xs with
  | nil => simp [List.takeWhile_cons, List.dropWhile_cons, hy]
  | cons a xs ih =>
    have ha : p a = true := h a (by simp)
    have ih2 := ih (fun c hc => h c (by simp [hc]))
    simp [List.takeWhile_cons, List.dropWhile_cons, ha, ih2.1, ih2.2]

theorem takeWhile_dropWhile_all {p : Char → Bool} {l : List Char}
    (h : ∀ c ∈ l, p c = true) : l.takeWhile p = l ∧ l.dropWhile p = [] := by
  induction l with
  | nil => simp
  | cons a l ih =>
    have ha : p a = true := h a (by simp)
    have ih2 := ih (fun c hc => h c (by simp [hc]))
    simp [List.takeWhile_cons, List.dropWhile_cons, ha, ih2.1, ih2.2]

/-! ## The digest check: characterisation and the case-insensitive prefix -/

theorem ciConsume_some_iff (pat cs r : List Char) :
    ciConsume pat cs = some r ↔
      ∃ pre, cs = pre ++ r ∧
        pre.map (fun c => lowCode c.toNat) = pat.map (fun c => lowCode c.toNat) := by
  induction pat generalizing cs with
  | nil =>
    simp only [ciConsume, Option.some.injEq, List.map_nil]
    constructor
    · rintro rfl; exact ⟨[], rfl, rfl⟩
    · rintro ⟨pre, hsplit, hmap⟩
      have hpre : pre = [] := List.map_eq_nil_iff.mp hmap
      rw [hpre, List.nil_append] at hsplit
      exact hsplit
  | cons p ps ih =>
    cases cs with
    | nil =>
      simp only [ciConsume, List.map_cons]
      constructor
      · intro h; cases h
      · rintro ⟨pre, hsplit, hmap⟩
        have : pre = [] ∧ r = [] := by
          constructor
          · cases pre with
            | nil => rfl
            | cons a l => simp at hsplit
          · cases pre <;> simp_all
        rcases this with ⟨rfl, rfl⟩
        simp at hmap
    | cons c cs' =>
      simp only [ciConsume]
      by_cases hce : ciEq p c = true
      · rw [if_pos hce, ih cs']
        have hpc : lowCode p.toNat = lowCode c.toNat := by
          simpa [ciEq] using hce
        constructor
        · rintro ⟨pre', hsplit, hmap⟩
          exact ⟨c :: pre', by simp [hsplit], by simp [hmap, hpc]⟩
        · rintro ⟨pre, hsplit, hmap⟩
          cases pre with
          | nil => simp at hmap
          | cons a pre' =>
            simp only [List.cons_append, List.cons.injEq] at hsplit
            rcases hsplit with ⟨rfl, hsplit'⟩
            simp only [List.map_cons, List.cons.injEq] at hmap
            exact ⟨pre', hsplit', hmap.2⟩
      · rw [if_neg hce]
        constructor
        · intro h; cases h
        · rintro ⟨pre, hsplit, hmap⟩
          cases pre with
          | nil => simp at hmap
          | cons a pre' =>
            simp only [List.cons_append, List.cons.injEq] at hsplit
            rcases hsplit with ⟨rfl, _⟩
            simp only [List.map_cons, List.cons.injEq] at hmap
            exact absurd (by simp [ciEq, hmap.1]) hce

theorem hexDigitCI_iff (c : Char) :
    hexDigitCI c = true ↔
      (48 ≤ lowCode c.toNat ∧ lowCode c.toNat ≤ 57) ∨
      (97 ≤ lowCode c.toNat ∧ lowCode c.toNat ≤ 102) := by
  simp only [hexDigitCI, lowCode, Bool.or_eq_true, Bool.and_eq_true, decide_eq_true_eq]
  split <;> omega

theorem shaTest_iff (s : String) : shaTest s = true ↔ ShaAccepts s := by
  have hpat : ("sha256:".data).map (fun c => lowCode c.toNat) =
      "sha256:".data.map Char.toNat := by decide
  constructor
  · intro h
    rcases hmatch : ciConsume "sha256:".data s.data with _ | rest
    · rw [shaTest, hmatch] at h; cases h
    · rw [shaTest, hmatch, Bool.and_eq_true, beq_iff_eq, List.all_eq_true] at h
      obtain ⟨hlen, hall⟩ := h
      obtain ⟨pre, hsplit, hmap⟩ := (ciConsume_some_iff _ _ _).mp hmatch
      refine ⟨rest.map (fun c => lowCode c.toNat), ?_, by simp [hlen], ?_⟩
      · rw [hsplit, List.map_append, hmap, hpat]
      · intro n hn
        rw [List.mem_map] at hn
        obtain ⟨c, hc, rfl⟩ := hn
        exact (hexDigitCI_iff c).mp (hall c hc)
  · rintro ⟨run, hmap, hlen, hmem⟩
    have hpat7 : ("sha256:".data.map Char.toNat).length = 7 := by decide
    have hpre_map : (s.data.take 7).map (fun c => lowCode c.toNat) =
        "sha256:".data.map (fun c => lowCode c.toNat) := by
      rw [List.map_take, hmap, hpat, ← hpat7, List.take_left]
    have hrest_map : (s.data.drop 7).map (fun c => lowCode c.toNat) = run := by
      rw [List.map_drop, hmap, ← hpat7, List.drop_left]
    have hcons : ciConsume "sha256:".data s.data = some (s.data.drop 7) :=
      (ciConsume_some_iff _ _ _).mpr
        ⟨s.data.take 7, (List.take_append_drop 7 s.data).symm, hpre_map⟩
    rw [shaTest, hcons, Bool.and_eq_true, beq_iff_eq, List.all_eq_true]
    constructor
    · have := congrArg List.length hrest_map
      simpa [hlen] using this
    · intro c hc
      refine (hexDigitCI_iff c).mpr (hmem _ ?_)
      rw [← hrest_map]
      exact List.mem_map_of_mem _ hc

/-! ## The SemVer check: characterisation -/

theorem svCharOk_iff (c : Char) : svCharOk c = true ↔ SvChar c := by
  simp only [svCharOk, SvChar, Bool.or_eq_true, beq_iff_eq]
  tauto

theorem bnot_isEmpty_iff (l : List α) : (!l.isEmpty) = true ↔ l ≠ [] := by
  cases l <;> simp

theorem semverBuild_iff (r : List Char) :
    semverBuild r = true ↔
      r = [] ∨ ∃ bld, r = '+' :: bld ∧ bld ≠ [] ∧ ∀ c ∈ bld, SvChar c := by
  cases r with
  | nil => simp [semverBuild]
  | cons c2 bld =>
    rw [semverBuild, Bool.and_eq_true, Bool.and_eq_true, beq_iff_eq, bnot_isEmpty_iff,
      List.all_eq_true]
    constructor
    · rintro ⟨⟨rfl, hbne⟩, hball⟩
      exact Or.inr ⟨bld, rfl, hbne, fun c hc => (svCharOk_iff c).mp (hball c hc)⟩
    · rintro (h | ⟨bld2, heq, hbne, hball⟩)
      · cases h
      · injection heq with h1 h2
        subst h1; subst h2
        exact ⟨⟨rfl, hbne⟩, fun c hc => (svCharOk_iff c).mpr (hball c hc)⟩

theorem semverTail_iff (t : List Char) : semverTail t = true ↔ SemVerTailSpec t := by
  cases t with
  | nil => simp [semverTail, SemVerTailSpec]
  | cons c rest =>
    by_cases hminus : c = '-'
    · subst hminus
      have hstep : semverTail ('-' :: rest) =
          ((!(rest.takeWhile svCharOk).isEmpty) && semverBuild (rest.dropWhile svCharOk)) := rfl
      rw [hstep, Bool.and_eq_true, bnot_isEmpty_iff, semverBuild_iff]
      constructor
      · rintro ⟨hne', hrest⟩
        rcases hrest with hdw | ⟨bld, hdw, hbne, hball⟩
        · have hrest_eq : rest = rest.takeWhile svCharOk := by
            conv_lhs => rw [← List.takeWhile_append_dropWhile svCharOk rest]
            rw [hdw, List.append_nil]
          refine Or.inr (Or.inl ⟨rest, rfl, ?_, ?_⟩)
          · intro hx
            rw [hx] at hne'
            exact hne' rfl
          · intro x hx
            exact (svCharOk_iff x).mp (mem_takeWhile_pred x (hrest_eq ▸ hx))
        · have hrest_eq : rest = rest.takeWhile svCharOk ++ '+' :: bld := by
            conv_lhs => rw [← List.takeWhile_append_dropWhile svCharOk rest]
            rw [hdw]
          refine Or.inr (Or.inr (Or.inl
            ⟨rest.takeWhile svCharOk, bld, by rw [List.cons_append, ← hrest_eq], ?_, hbne, ?_, hball⟩))
          · intro hx; exact hne' hx
          · intro x hx; exact (svCharOk_iff x).mp (mem_takeWhile_pred x hx)
      · rintro (h | ⟨pre, hpre, hne, hall⟩ | ⟨pre, bld, heq, hpne, hbne, hpall, hball⟩ |
          ⟨bld, hbld, hb1, hb2⟩)
        · cases h
        · have hrp : rest = pre := by injection hpre
          subst hrp
          have hall' : ∀ x ∈ rest, svCharOk x = true :=
            fun x hx => (svCharOk_iff x).mpr (hall x hx)
          obtain ⟨htw, hdw⟩ := takeWhile_dropWhile_all hall'
          rw [htw, hdw]
          exact ⟨hne, Or.inl rfl⟩
        · have hrp : rest = pre ++ '+' :: bld := by injection heq
          subst hrp
          have hpall' : ∀ x ∈ pre, svCharOk x = true :=
            fun x hx => (svCharOk_iff x).mpr (hpall x hx)
          obtain ⟨htw, hdw⟩ := takeWhile_dropWhile_append_of hpall' (y := '+') (by decide) bld
          rw [htw, hdw]
          exact ⟨hpne, Or.inr ⟨bld, rfl, hbne, hball⟩⟩
        · injection hbld with h1 _
          exact absurd h1 (by decide)
    · by_cases hplus : c = '+'
      · subst hplus
        have hstep : semverTail ('+' :: rest) = (!rest.isEmpty && rest.all svCharOk) := rfl
        rw [hstep, Bool.and_eq_true, bnot_isEmpty_iff, List.all_eq_true]
        constructor
        · rintro ⟨hne, hall⟩
          exact Or.inr (Or.inr (Or.inr
            ⟨rest, rfl, hne, fun x hx => (svCharOk_iff x).mp (hall x hx)⟩))
        · rintro (h | ⟨pre, hpre, hne, hall⟩ | ⟨pre, bld, heq, hpne, hbne, hpall, hball⟩ |
            ⟨bld, hbld, hbne, hball⟩)
          · cases h
          · injection hpre with h1 _
            exact absurd h1 (by decide)
          · injection heq with h1 _
            exact absurd h1 (by decide)
          · have hrb : rest = bld := by injection hbld
            subst hrb
            exact ⟨hbne, fun x hx => (svCharOk_iff x).mpr (hball x hx)⟩
      · have hm : (c == '-') = false := by
          rcases Bool.eq_false_or_eq_true (c == '-') with h | h
          · exact absurd (beq_iff_eq.mp h) hminus
          · exact h
        have hp : (c == '+') = false := by
          rcases Bool.eq_false_or_eq_true (c == '+') with h | h
          · exact absurd (beq_iff_eq.mp h) hplus
          · exact h
        have hstep : semverTail (c :: rest) = false := by
          rw [semverTail]
          rw [if_neg (by rw [hm]; exact Bool.false_ne_true), if_neg (by rw [hp]; exact Bool.false_ne_true)]
        rw [hstep]
        constructor
        · intro h; cases h
        · rintro (h | ⟨pre, hpre, _, _⟩ | ⟨pre, bld, heq, _, _, _, _⟩ | ⟨bld, hbld, _, _⟩)
          · cases h
          · injection hpre with h1 _
            exact absurd h1 hminus
          · injection heq with h1 _
            exact absurd h1 hminus
          · injection hbld with h1 _
            exact absurd h1 hplus

theorem semverNum_some_iff (cs r : List Char) :
    semverNum cs = some r ↔
      ∃ A, cs = A ++ r ∧ A ≠ [] ∧ (∀ c ∈ A, c.isDigit = true) ∧
        (r = [] ∨ ∃ y ys, r = y :: ys ∧ y.isDigit = false) := by
  rw [semverNum]
  by_cases h : (cs.takeWhile Char.isDigit).isEmpty = true
  · rw [if_pos h]
    constructor
    · intro hx; cases hx
    · rintro ⟨A, rfl, hne, hdig, _⟩
      rcases A with _ | ⟨a, A'⟩
      · exact absurd rfl hne
      · rw [isEmpty_eq_true_iff] at h
        rw [List.cons_append, List.takeWhile_cons, hdig a (by simp)] at h
        cases h
  · rw [if_neg h]
    constructor
    · rintro hx
      injection hx with hx
      refine ⟨cs.takeWhile Char.isDigit, ?_, ?_, fun c hc => mem_takeWhile_pred c hc, ?_⟩
      · rw [← hx, List.takeWhile_append_dropWhile]
      · intro hx2; rw [hx2] at h; simp at h
      · rw [← hx]
        rcases hdw : cs.dropWhile Char.isDigit with _ | ⟨y, ys⟩
        · exact Or.inl rfl
        · refine Or.inr ⟨y, ys, rfl, ?_⟩
          have : ∀ l : List Char, l.dropWhile Char.isDigit = y :: ys → y.isDigit = false := by
            intro l
            induction l with
            | nil => intro hl; cases hl
            | cons a l ih =>
              intro hl
              rw [List.dropWhile_cons] at hl
              by_cases ha : a.isDigit = true
              · rw [if_pos ha] at hl; exact ih hl
              · rw [if_neg ha] at hl
                injection hl with h1 _
                rw [← h1]
                exact Bool.of_not_eq_true ha
          exact this cs hdw
    · rintro ⟨A, rfl, hne, hdig, hhead⟩
      rcases hhead with rfl | ⟨y, ys, rfl, hy⟩
      · obtain ⟨htw, hdw⟩ := takeWhile_dropWhile_all hdig
        rw [List.append_nil, hdw]
      · obtain ⟨htw, hdw⟩ := takeWhile_dropWhile_append_of hdig hy ys
        rw [hdw]

theorem semverTail_head_not_digit {y : Char} {ys : List Char}
    (h : semverTail (y :: ys) = true) : y.isDigit = false := by
  by_cases h1 : y = '-'
  · subst h1; decide
  · by_cases h2 : y = '+'
    · subst h2; decide
    · exfalso
      rw [semverTail] at h
      rw [if_neg (fun hx => h1 (beq_iff_eq.mp hx)),
        if_neg (fun hx => h2 (beq_iff_eq.mp hx))] at h
      cases h

theorem semverCore_iff (cs : List Char) :
    semverCore cs = true ↔
      ∃ A B C t : List Char,
        cs = A ++ ('.' :: (B ++ ('.' :: (C ++ t)))) ∧
        A ≠ [] ∧ B ≠ [] ∧ C ≠ [] ∧
        (∀ c ∈ A, c.isDigit = true) ∧ (∀ c ∈ B, c.isDigit = true) ∧
        (∀ c ∈ C, c.isDigit = true) ∧ semverTail t = true := by
  constructor
  · intro h
    rw [semverCore] at h
    rcases h1 : semverNum cs with _ | r1
    · rw [h1] at h; cases h
    · rw [h1] at h
      obtain ⟨A, hcs, hAne, hAdig, _⟩ := (semverNum_some_iff _ _).mp h1
      rcases r1 with _ | ⟨c1, r2⟩
      · cases h
      · rw [Bool.and_eq_true, beq_iff_eq] at h
        obtain ⟨rfl, h⟩ := h
        rcases h2 : semverNum r2 with _ | r3
        · rw [h2] at h; cases h
        · rw [h2] at h
          obtain ⟨B, hr2, hBne, hBdig, _⟩ := (semverNum_some_iff _ _).mp h2
          rcases r3 with _ | ⟨c2, r4⟩
          · cases h
          · rw [Bool.and_eq_true, beq_iff_eq] at h
            obtain ⟨rfl, h⟩ := h
            rcases h3 : semverNum r4 with _ | r5
            · rw [h3] at h; cases h
            · rw [h3] at h
              obtain ⟨C, hr4, hCne, hCdig, _⟩ := (semverNum_some_iff _ _).mp h3
              exact ⟨A, B, C, r5, by rw [hcs, hr2, hr4], hAne, hBne, hCne, hAdig, hBdig, hCdig, h⟩
  · rintro ⟨A, B, C, t, rfl, hAne, hBne, hCne, hAdig, hBdig, hCdig, htail⟩
    have hdot : ('.' : Char).isDigit = false := by decide
    have h1 : semverNum (A ++ ('.' :: (B ++ ('.' :: (C ++ t))))) =
        some ('.' :: (B ++ ('.' :: (C ++ t)))) :=
      (semverNum_some_iff _ _).mpr ⟨A, rfl, hAne, hAdig, Or.inr ⟨_, _, rfl, hdot⟩⟩
    have h2 : semverNum (B ++ ('.' :: (C ++ t))) = some ('.' :: (C ++ t)) :=
      (semverNum_some_iff _ _).mpr ⟨B, rfl, hBne, hBdig, Or.inr ⟨_, _, rfl, hdot⟩⟩
    have h3 : semverNum (C ++ t) = some t := by
      rcases t with _ | ⟨y, ys⟩
      · exact (semverNum_some_iff _ _).mpr ⟨C, rfl, hCne, hCdig, Or.inl rfl⟩
      · exact (semverNum_some_iff _ _).mpr
          ⟨C, rfl, hCne, hCdig, Or.inr ⟨y, ys, rfl, semverTail_head_not_digit htail⟩⟩
    simp only [semverCore, h1, h2, h3]
    simp [htail]

theorem semverTest_iff (s : String) : semverTest s = true ↔ SemVerAccepts s := by
  rw [semverTest, semverCore_iff, SemVerAccepts]
  constructor
  · rintro ⟨A, B, C, t, heq, h1, h2, h3, h4, h5, h6, h7⟩
    exact ⟨A, B, C, t, heq, h1, h2, h3, h4, h5, h6, (semverTail_iff t).mp h7⟩
  · rintro ⟨A, B, C, t, heq, h1, h2, h3, h4, h5, h6, h7⟩
    exact ⟨A, B, C, t, heq, h1, h2, h3, h4, h5, h6, (semverTail_iff t).mpr h7⟩

/-! ## JSON documents, the filesystem, and the document loader -/

/-- A parsed JSON value (the result of `JSON.parse`). -/
inductive Json where
  | jnull
  | jbool (b : Bool)
  | jnum (n : Int)
  | jstr (s : String)
  | jarr (elems : List Json)
  | jobj (fields : List (String × Json))

/-- JS property access `j[k]` on a parsed document: `undefined` (`none`)
when the value is not an object or lacks the key.  (`JSON.parse` keeps one
binding per key, so the association list has no duplicates.) -/
def getField : Json → String → Option Json
  | .jobj fields, k => fields.lookup k
  | _, _ => none

/-- The failure kinds surfaced by the CLI: a raised I/O error from
`readFileSync`/`statSync`, a `JSON.parse` failure, the loader's own
`invalid_json` error, a failed `assert`, and `die`. -/
inductive CliError where
  | ioError (path : String)
  | parseFail (path : String)
  | invalidJson (path : String)
  | assertFail (msg : String)
  | dieMsg (msg : String)
deriving DecidableEq

/-- The message printed for an error at top level (`main().catch`).  The
host messages of the first two kinds are abbreviated. -/
def CliError.message : CliError → String
  | .ioError p => "ENOENT: " ++ p
  | .parseFail p => "Unexpected token in JSON: " ++ p
  | .invalidJson p => "invalid_json: " ++ p
  | .assertFail m => m
  | .dieMsg m => m

/-- On-disk file content, abstracted over the JSON grammar: a file either
parses as a JSON document (represented by its parse) or it does not. -/
inductive FileData where
  | jsonData (j : Json)
  | textData (s : String)

/-- The filesystem: regular files as full paths with contents, listed in
tree-walk order.  (Directories are implicit; every listed path is a
regular file.) -/
abbrev FS := List (String × FileData)

/-- `readFileSync`: the file contents, or a raised I/O error. -/
def readFile (fs : FS) (p : String) : Except CliError FileData :=
  match fs.lookup p with
  | some d => .ok d
  | none => .error (.ioError p)

/-- `JSON.parse`, abstracted over the concrete grammar. -/
def jsparse : FileData → Option Json
  | .jsonData j => some j
  | .textData _ => none

/-- The body of `parseJson`'s `try` block:
`JSON.parse(readFileSync(path, "utf8"))` — a read failure raises the I/O
error, a parse failure raises the parse error. -/
def parseJsonRaw (fs : FS) (path : String) : Except CliError Json :=
  match readFile fs path with
  | .error e => .error e
  | .ok d =>
    match jsparse d with
    | some j => .ok j
    | none => .error (.parseFail path)

/-- `parseJson`: the `try` block wrapped in the `catch` that rethrows
every failure as `invalid_json: <path>`. -/
def parseJson (fs : FS) (path : String) : Except CliError Json :=
  match parseJsonRaw fs path with
  | .ok j => .ok j
  | .error _ => .error (.invalidJson path)

/-! ## Argument parsing and the tree walk -/

/-- `argValue(args, name, fallback)`: the element after the first
occurrence of `name`, else the fallback. -/
def argValue (args : List String) (name : String) (fallback : Option String) : Option String :=
  match idxFind (· == name) args with
  | none => fallback
  | some i =>
    match nth args (i + 1) with
    | some v => some v
    | none => fallback

/-- The `--root` value with its default `"."`. -/
def rootArg (args : List String) : String := (argValue args "--root" (some ".")).getD "."

/-- `walk(dir)`: every regular file under `dir`, in tree order.  In the
flat model this is the prefix filter over the walk-ordered file list. -/
def walk (fs : FS) (dir : String) : List String :=
  (fs.filter (fun e => startsWithS e.1 (dir ++ "/"))).map (fun e => e.1)

/-! ## `validate models`: the field checks -/

/-- `typeof m[k] === "string" && m[k].trim()`. -/
def strFieldNonBlank (m : Json) (k : String) : Bool :=
  match getField m k with
  | some (.jstr s) => nonBlankS s
  | _ => false

/-- `["text","vision","multimodal"].includes(m.modality)`. -/
def modalityFieldOk (m : Json) : Bool :=
  match getField m "modality" with
  | some (.jstr s) => s == "text" || s == "vision" || s == "multimodal"
  | _ => false

/-- `m.owner && typeof m.owner === "object"`: arrays and objects are
`"object"` and truthy; `null` is `"object"` but falsy. -/
def ownerOk (m : Json) : Bool :=
  match getField m "owner" with
  | some (.jobj _) => true
  | some (.jarr _) => true
  | _ => false

/-- `typeof m.createdAt === "string" && isIsoDate(m.createdAt)`; the
`Date.parse` grammar inside `isIsoDate` is the parameter `dc`. -/
def createdAtOk (dc : String → Bool) (m : Json) : Bool :=
  match getField m "createdAt" with
  | some (.jstr s) => dc s
  | _ => false

/-- `typeof v.version === "string" && SEMVER_RE.test(v.version)`. -/
def versionFieldOk (m : Json) : Bool :=
  match getField m "version" with
  | some (.jstr s) => semverTest s
  | _ => false

/-- JS strict equality `x === y` between a `string | undefined` value and
a property of a parsed document. -/
def jsEqOptStr : Option String → Option Json → Bool
  | some x, some (.jstr y) => x == y
  | none, none => true
  | _, _ => false

/-- JS strict equality between two properties of separately parsed
documents (`v.modelId === m.id`): value equality on primitives, reference
inequality on distinct parses of objects and arrays. -/
def jsEqJson : Option Json → Option Json → Bool
  | some (.jstr a), some (.jstr b) => a == b
  | some (.jnum a), some (.jnum b) => a == b
  | some (.jbool a), some (.jbool b) => a == b
  | some .jnull, some .jnull => true
  | none, none => true
  | _, _ => false

/-- The string a template literal interpolates for a field that the
preceding checks established to be a string. -/
def tmplField (m : Json) (k : String) : String :=
  match getField m k with
  | some (.jstr s) => s
  | _ => "undefined"

/-- Lines 163–165: `mf.split(/\\|\//)`, `parts.indexOf("models")`,
`parts[idx + 1]`. -/
def folderModality (mf : String) : Option String :=
  let parts := splitSepsS mf
  match idxFind (· == "models") parts with
  | some i => nth parts (i + 1)
  | none => none

/-- `mf.replace(/model\.json$/, "PERFORMANCE.md")`. -/
def perfPathOf (mf : String) : String := replaceTailS mf "model.json" "PERFORMANCE.md"

/-- `mf.replace(/model\.json$/, "versions")`. -/
def versionsDirOf (mf : String) : String := replaceTailS mf "model.json" "versions"

/-- Line 177: the expected version-file path `versions/<m.version>.json`,
slash-normalised. -/
def expectedOf (mf : String) (m : Json) : String :=
  normSlash (joinP (versionsDirOf mf) (tmplField m "version" ++ ".json"))

/-- Lines 178–180: the version files whose normalised path starts with the
model's `versions` directory, normalised. -/
def matchingOf (versionFiles : List String) (mf : String) : List String :=
  (versionFiles.filter
    (fun vf => startsWithS (normSlash vf) (normSlash (versionsDirOf mf)))).map normSlash

/-- Lines 189–190: the filename stem
`vf.split("/").pop()?.replace(/\.json$/, "")`. -/
def stemOf (vf : String) : Option String :=
  ((splitSlashS vf).getLast?).map (fun n => replaceTailS n ".json" "")

/-- `v.artifact?.digest`. -/
def digestOf (v : Json) : Option Json :=
  match getField v "artifact" with
  | some a => getField a "digest"
  | none => none

/-- `typeof d === "string" && SHA256_RE.test(d)`. -/
def digestStrOk : Json → Bool
  | .jstr s => shaTest s
  | _ => false

/-- The per-version-file checks (source lines 185–196), failing on the
first violation. -/
def validateVersionFile (fs : FS) (m : Json) (vf : String) : Except CliError Unit :=
  match parseJson fs vf with
  | .error e => .error e
  | .ok v =>
    if jsEqJson (getField v "modelId") (getField m "id") then
      if versionFieldOk v then
        if jsEqOptStr (stemOf vf) (getField v "version") then
          match digestOf v with
          | none => .ok ()
          | some d =>
            if digestStrOk d then .ok ()
            else .error (.assertFail ("artifact.digest invalid: " ++ vf))
        else .error (.assertFail ("version filename mismatch: " ++ vf))
      else .error (.assertFail ("version.version invalid: " ++ vf))
    else .error (.assertFail ("version.modelId mismatch: " ++ vf))

/-- `for (const vf of matching)`, failing fast. -/
def validateVersions (fs : FS) (m : Json) : List String → Except CliError Unit
  | [] => .ok ()
  | vf :: rest =>
    match validateVersionFile fs m vf with
    | .ok _ => validateVersions fs m rest
    | .error e => .error e

/-- The per-model-file checks (source lines 153–197), failing on the first
violation.  The `PERFORMANCE.md` stat-and-isFile check is presence of the
path among the regular files. -/
def validateModelFile (dc : String → Bool) (fs : FS) (versionFiles : List String)
    (mf : String) : Except CliError Unit :=
  match parseJson fs mf with
  | .error e => .error e
  | .ok m =>
    if strFieldNonBlank m "id" then
      if strFieldNonBlank m "name" then
        if modalityFieldOk m then
          if ownerOk m then
            if createdAtOk dc m then
              if versionFieldOk m then
                if jsEqOptStr (folderModality mf) (getField m "modality") then
                  match fs.lookup (perfPathOf mf) with
                  | none => .error (.assertFail ("PERFORMANCE.md missing: " ++ perfPathOf mf))
                  | some _ =>
                    if (matchingOf versionFiles mf).length > 0 then
                      if (matchingOf versionFiles mf).contains (expectedOf mf m) then
                        validateVersions fs m (matchingOf versionFiles mf)
                      else .error (.assertFail ("missing versions/" ++ tmplField m "version" ++
                        ".json for model " ++ tmplField m "id"))
                    else .error (.assertFail ("no versions found for model " ++ tmplField m "id"))
                else .error (.assertFail ("modality folder mismatch for " ++ tmplField m "id"))
              else .error (.assertFail ("model.version must be SemVer: " ++ mf))
            else .error (.assertFail ("createdAt must be ISO date: " ++ mf))
          else .error (.assertFail ("model.owner required: " ++ mf))
        else .error (.assertFail ("model.modality invalid: " ++ mf))
      else .error (.assertFail ("model.name required: " ++ mf))
    else .error (.assertFail ("model.id required: " ++ mf))

/-- Line 148: the walked files ending in `model.json`. -/
def modelFilesOf (fs : FS) (args : List String) : List String :=
  (walk fs (joinP (rootArg args) "models")).filter (fun p => endsWithS p "model.json")

/-- Line 149: the walked files with a `versions` segment, ending in
`.json`. -/
def versionFilesOf (fs : FS) (args : List String) : List String :=
  (walk fs (joinP (rootArg args) "models")).filter
    (fun p => hasVersionsSegS p && endsWithS p ".json")

/-- `for (const mf of modelFiles)`, failing fast. -/
def validateAll (dc : String → Bool) (fs : FS) (versionFiles : List String) :
    List String → Except CliError Unit
  | [] => .ok ()
  | mf :: rest =>
    match validateModelFile dc fs versionFiles mf with
    | .ok _ => validateAll dc fs versionFiles rest
    | .error e => .error e

/-- `cmdValidateModels`: the console lines and exit code on success, the
raised error otherwise. -/
def cmdValidateModels (dc : String → Bool) (fs : FS) (args : List String) :
    Except CliError (List String × Nat) :=
  if (modelFilesOf fs args).length > 0 then
    match validateAll dc fs (versionFilesOf fs args) (modelFilesOf fs args) with
    | .ok _ => .ok (["OK: models registry validation passed."], 0)
    | .error e => .error e
  else .error (.assertFail "no model.json entries found under models/")

/-- The observable outcome of one process run. -/
structure RunOut where
  exitCode : Nat
  stdout : List String
  stderr : List String
deriving DecidableEq

/-- `validate models` as run through `main`: `process.exit(code)` on
success, `main().catch` printing the message and exiting 1 otherwise. -/
def runValidate (dc : String → Bool) (fs : FS) (args : List String) : RunOut :=
  match cmdValidateModels dc fs args with
  | .ok (out, code) => ⟨code, out, []⟩
  | .error e => ⟨1, [], [e.message]⟩

/-! ## `init model` -/

/-- `"0".repeat(64)`. -/
def zeros64 : String := String.mk (List.replicate 64 '0')

/-- `write`: `mkdirSync` + `writeFileSync`, overwriting an existing file or
appending a new one. -/
def fsWrite (fs : FS) (p : String) (d : FileData) : FS :=
  if fs.any (fun e => e.1 == p) then
    fs.map (fun e => if e.1 == p then (p, d) else e)
  else fs ++ [(p, d)]

/-- The scaffolded `model.json` document (source lines 102–112). -/
def modelJsonOf (id name modality owner ownerName createdAt version : String) : Json :=
  .jobj [("id", .jstr id), ("name", .jstr name), ("modality", .jstr modality),
    ("description", .jstr "TODO: add description"),
    ("owner", .jobj [("contributorId", .jstr owner), ("displayName", .jstr ownerName)]),
    ("createdAt", .jstr createdAt), ("version", .jstr version),
    ("tags", .jarr [.jstr "todo"]), ("links", .jobj [("repo", .jstr "TODO")])]

/-- The scaffolded `versions/<version>.json` document (lines 114–124). -/
def versionJsonOf (id version releasedAt : String) : Json :=
  .jobj [("modelId", .jstr id), ("version", .jstr version),
    ("releasedAt", .jstr releasedAt),
    ("artifact", .jobj [("uri", .jstr "TODO"), ("digest", .jstr ("sha256:" ++ zeros64)),
      ("builtWith", .jobj [("framework", .jstr "TODO"), ("runtime", .jstr "TODO"),
        ("notes", .jstr "TODO")])]),
    ("benchmarks", .jarr [])]

/-- The scaffolded `PERFORMANCE.md` body (lines 128–137). -/
def perfTextOf (id createdAt : String) : String :=
  "# Performance notes — " ++ id ++ "\n\n- Benchmark: TODO\n- Date: " ++
    String.mk (createdAt.data.take 10) ++
    "\n- Environment: TODO\n- Report: TODO\n\nNotes:\n- Keep it factual and reproducible.\n"

/-- `cmdInitModel`, with the clock abstracted: `nowIso` stands for
`new Date().toISOString()`.  Returns the updated filesystem, the console
lines and the exit code, or the `die` message on a usage error. -/
def cmdInitModel (nowIso : String) (fs : FS) (args : List String) :
    Except CliError (FS × List String × Nat) :=
  let modality? := argValue args "--modality" none
  let slug? := argValue args "--slug" none
  let id? := argValue args "--id" none
  let name? := argValue args "--name"
    (match slug? with
     | some s => if s == "" then some "New Model" else some s
     | none => some "New Model")
  let owner? := argValue args "--owner" (some "contrib:unknown")
  let ownerName? := argValue args "--owner-name" (some "Unknown")
  let version? := argValue args "--version" (some "0.1.0")
  let modalityGood :=
    match modality? with
    | some m => m != "" && (m == "text" || m == "vision" || m == "multimodal")
    | none => false
  let slugGood := match slug? with | some s => s != "" | none => false
  let idGood := match id? with | some s => s != "" | none => false
  let versionGood := match version? with | some v => v != "" && semverTest v | none => false
  if !modalityGood then
    .error (.dieMsg "init model: --modality must be one of text|vision|multimodal")
  else if !slugGood then .error (.dieMsg "init model: --slug is required")
  else if !idGood then .error (.dieMsg "init model: --id is required (recommended org/name)")
  else if !versionGood then .error (.dieMsg "init model: --version must be SemVer")
  else
    let modality := modality?.getD ""
    let slug := slug?.getD ""
    let id := id?.getD ""
    let name := name?.getD ""
    let owner := owner?.getD ""
    let ownerName := ownerName?.getD ""
    let version := version?.getD ""
    let root := rootArg args
    let base := joinP (joinP (joinP root "models") modality) slug
    let fs1 := fsWrite fs (joinP base "model.json")
      (.jsonData (modelJsonOf id name modality owner ownerName nowIso version))
    let fs2 := fsWrite fs1 (joinP (joinP base "versions") (version ++ ".json"))
      (.jsonData (versionJsonOf id version nowIso))
    let fs3 := fsWrite fs2 (joinP base "PERFORMANCE.md") (.textData (perfTextOf id nowIso))
    .ok (fs3, ["Scaffolded: " ++ base], 0)

/-! ## The dispatcher `main` -/

/-- The usage text. -/
def helpText : String :=
  "\nthynkai (toolkits)\n\nUsage:\n  thynkai <command> [subcommand] [options]\n\nCommands:\n  init model         Scaffold a model entry (for thynkai-models)\n  validate models    Validate a models registry tree\n  digest             Compute sha256 digest for a local file\n  publish            Print a dry-run summary of changed files\n\nExamples:\n  thynkai init model --modality text --slug my-model --id thynkai/my-model\n  thynkai validate models --root .\n  thynkai digest --file ./artifact.bin\n  thynkai publish --root . --since HEAD~1\n"

/-- `main` (source lines 274–299), parameterised by the command table
(whose `digest`/`publish` handlers depend on host primitives): the help
short-circuit, the two-token dispatch, and the handler call on the
remaining arguments. -/
def mainApp (cmds : String → Option (List String → RunOut)) (args : List String) : RunOut :=
  if args.isEmpty || args.contains "--help" || args.contains "-h" then
    ⟨0, [helpText], []⟩
  else
    let c1 := nth args 0
    let c2 := nth args 1
    let key : Option String :=
      if c1 == some "init" && c2 == some "model" then some "init:model"
      else if c1 == some "validate" && c2 == some "models" then some "validate:models"
      else if c1 == some "digest" then some "digest"
      else if c1 == some "publish" then some "publish"
      else none
    match key with
    | none => ⟨1, [helpText], ["Unknown command."]⟩
    | some k =>
      match cmds k with
      | none => ⟨1, [helpText], ["Unknown command."]⟩
      | some cmd => cmd (args.drop 2)

/-! ## Characterisation of the validation engine -/

/-- A guard in the fail-fast chain succeeds exactly when its condition
holds and the continuation succeeds. -/
theorem guard_ok_iff {p : Prop} [Decidable p] {e : CliError} {rest : Except CliError Unit} :
    (if p then rest else Except.error e) = .ok () ↔ p ∧ rest = .ok () := by
  by_cases h : p <;> simp [h]

/-- `if (v.artifact?.digest !== undefined) assert(...)` as one condition. -/
def digestCheckOk (v : Json) : Bool :=
  match digestOf v with
  | none => true
  | some d => digestStrOk d

theorem validateVersionFile_ok_iff (fs : FS) (m : Json) (vf : String) :
    validateVersionFile fs m vf = .ok () ↔
      ∃ v, parseJson fs vf = .ok v ∧
        jsEqJson (getField v "modelId") (getField m "id") = true ∧
        versionFieldOk v = true ∧
        jsEqOptStr (stemOf vf) (getField v "version") = true ∧
        digestCheckOk v = true := by
  rw [validateVersionFile]
  cases hp : parseJson fs vf with
  | error e => simp
  | ok v =>
    rw [guard_ok_iff, guard_ok_iff, guard_ok_iff]
    cases hd : digestOf v with
    | none => simp [digestCheckOk, hd, and_assoc]
    | some d => rw [guard_ok_iff]; simp [digestCheckOk, hd, and_assoc]

theorem validateVersions_ok_iff (fs : FS) (m : Json) (l : List String) :
    validateVersions fs m l = .ok () ↔ ∀ vf ∈ l, validateVersionFile fs m vf = .ok () := by
  induction l with
  | nil => simp [validateVersions]
  | cons vf rest ih =>
    rw [validateVersions]
    cases hv : validateVersionFile fs m vf with
    | error e => simp [hv]
    | ok u => cases u; simp [hv, ih]

theorem validateModelFile_ok_iff (dc : String → Bool) (fs : FS)
    (versionFiles : List String) (mf : String) :
    validateModelFile dc fs versionFiles mf = .ok () ↔
      ∃ m, parseJson fs mf = .ok m ∧
        strFieldNonBlank m "id" = true ∧
        strFieldNonBlank m "name" = true ∧
        modalityFieldOk m = true ∧
        ownerOk m = true ∧
        createdAtOk dc m = true ∧
        versionFieldOk m = true ∧
        jsEqOptStr (folderModality mf) (getField m "modality") = true ∧
        (fs.lookup (perfPathOf mf)).isSome = true ∧
        (matchingOf versionFiles mf).length > 0 ∧
        (matchingOf versionFiles mf).contains (expectedOf mf m) = true ∧
        validateVersions fs m (matchingOf versionFiles mf) = .ok () := by
  rw [validateModelFile]
  cases hp : parseJson fs mf with
  | error e => simp
  | ok m =>
    rw [guard_ok_iff, guard_ok_iff, guard_ok_iff, guard_ok_iff, guard_ok_iff, guard_ok_iff,
      guard_ok_iff]
    cases hl : fs.lookup (perfPathOf mf) with
    | none => simp [and_assoc]
    | some d => rw [guard_ok_iff, guard_ok_iff]; simp [and_assoc]

theorem validateAll_ok_iff (dc : String → Bool) (fs : FS) (versionFiles : List String)
    (l : List String) :
    validateAll dc fs versionFiles l = .ok () ↔
      ∀ mf ∈ l, validateModelFile dc fs versionFiles mf = .ok () := by
  induction l with
  | nil => simp [validateAll]
  | cons mf rest ih =>
    rw [validateAll]
    cases hv : validateModelFile dc fs versionFiles mf with
    | error e => simp [hv]
    | ok u => cases u; simp [hv, ih]

theorem cmdValidateModels_ok_iff (dc : String → Bool) (fs : FS) (args : List String)
    (out : List String × Nat) :
    cmdValidateModels dc fs args = .ok out ↔
      out = (["OK: models registry validation passed."], 0) ∧
      (modelFilesOf fs args).length > 0 ∧
      validateAll dc fs (versionFilesOf fs args) (modelFilesOf fs args) = .ok () := by
  rw [cmdValidateModels]
  by_cases h : (modelFilesOf fs args).length > 0
  · rw [if_pos h]
    cases hv : validateAll dc fs (versionFilesOf fs args) (modelFilesOf fs args) with
    | error e => simp [h]
    | ok u => cases u; simp [h, eq_comm]
  · rw [if_neg h]
    simp [h]

/-- The fail-fast shortcut: with zero model files the command errors with
the fixed message, whatever the tree contains. -/
theorem cmdValidateModels_no_models (dc : String → Bool) (fs : FS) (args : List String)
    (h : (modelFilesOf fs args).length = 0) :
    cmdValidateModels dc fs args =
      .error (.assertFail "no model.json entries found under models/") := by
  rw [cmdValidateModels, if_neg (by omega)]

/-- A successful run validates every model file. -/
theorem modelFile_ok_of_run_ok (dc : String → Bool) (fs : FS) (args : List String)
    (out : List String × Nat) (hok : cmdValidateModels dc fs args = .ok out)
    (mf : String) (hmf : mf ∈ modelFilesOf fs args) :
    validateModelFile dc fs (versionFilesOf fs args) mf = .ok () := by
  obtain ⟨-, -, hall⟩ := (cmdValidateModels_ok_iff dc fs args out).mp hok
  exact (validateAll_ok_iff dc fs (versionFilesOf fs args) (modelFilesOf fs args)).mp hall mf hmf

/-! ## Concrete scenario filesystems -/

/-- A fixed ISO timestamp for concrete runs. -/
def isoC : String := "2024-05-01T00:00:00.000Z"

/-- A concrete stand-in for the `Date.parse` check, accepting the fixed
timestamp (which the host parser accepts). -/
def dcC : String → Bool := fun s => s == isoC

/-- A well-formed model document. -/
def mFoo : Json := modelJsonOf "org/foo" "Foo" "text" "contrib:unknown" "Unknown" isoC "1.0.0"

/-- Its matching version document. -/
def vFoo : Json := versionJsonOf "org/foo" "1.0.0" isoC

/-- A tree that validates. -/
def fsOK : FS :=
  [("repo/models/text/foo/model.json", .jsonData mFoo),
   ("repo/models/text/foo/PERFORMANCE.md", .textData "x"),
   ("repo/models/text/foo/versions/1.0.0.json", .jsonData vFoo)]

/-- A model under `models/vision/bar` that declares `modality: "text"`. -/
def mBar : Json := modelJsonOf "org/bar" "Bar" "text" "contrib:unknown" "Unknown" isoC "1.0.0"

/-- The folder/field mismatch tree. -/
def fsC3 : FS := [("repo/models/vision/bar/model.json", .jsonData mBar)]

/-- The model of `fsOK` but with current version pointer `1.1.0`. -/
def mFoo11 : Json := modelJsonOf "org/foo" "Foo" "text" "contrib:unknown" "Unknown" isoC "1.1.0"

/-- The tree with the expected `versions/1.1.0.json` absent. -/
def fsC4 : FS :=
  [("repo/models/text/foo/model.json", .jsonData mFoo11),
   ("repo/models/text/foo/PERFORMANCE.md", .textData "x"),
   ("repo/models/text/foo/versions/1.0.0.json", .jsonData vFoo)]

/-- An old version document with a malformed digest. -/
def vBad : Json :=
  .jobj [("modelId", .jstr "org/foo"), ("version", .jstr "0.9.0"),
    ("artifact", .jobj [("digest", .jstr "sha256:zz")])]

/-- A valid tree plus one non-current version file with a bad digest. -/
def fsC5 : FS :=
  [("repo/models/text/foo/model.json", .jsonData mFoo),
   ("repo/models/text/foo/PERFORMANCE.md", .textData "x"),
   ("repo/models/text/foo/versions/1.0.0.json", .jsonData vFoo),
   ("repo/models/text/foo/versions/0.9.0.json", .jsonData vBad)]

/-- A `models` tree with no `model.json` at all. -/
def fsC7 : FS := [("repo/models/readme.txt", .textData "hi")]

/-- The uppercase-prefix digest string. -/
def shaUpper : String := "SHA256:" ++ zeros64

/-! ## Claims -/

/-- C1 (counterexample): reading a missing file raises an I/O error inside
the `try` block, yet `parseJson` does not propagate it — the `catch`
converts it into the `invalid_json` error, contradicting the claim that
the underlying I/O error is propagated unchanged. -/
theorem c1_io_error_not_propagated :
    readFile ([] : FS) "missing.json" = .error (.ioError "missing.json") ∧
    parseJson ([] : FS) "missing.json" ≠ .error (.ioError "missing.json") ∧
    parseJson ([] : FS) "missing.json" = .error (.invalidJson "missing.json") := by
  refine ⟨rfl, ?_, rfl⟩
  intro h
  rw [show parseJson ([] : FS) "missing.json" =
    .error (.invalidJson "missing.json") from rfl] at h
  injection h with h'
  exact CliError.noConfusion h'

/-- C1 (amended): every failure of the JSON document loader — read failure
included — is the `invalid_json` error carrying the offending path; only a
successful read that parses returns a document. -/
theorem c1_loader_errors_are_invalid_json (fs : FS) (p : String) :
    (∀ e, parseJson fs p = .error e → e = .invalidJson p) ∧
    (∀ e, readFile fs p = .error e → parseJson fs p = .error (.invalidJson p)) := by
  constructor
  · intro e he
    rw [parseJson] at he
    cases hr : parseJsonRaw fs p with
    | ok j => rw [hr] at he; cases he
    | error e' => rw [hr] at he; injection he with he'; exact he'.symm
  · intro e he
    have hraw : parseJsonRaw fs p = .error e := by rw [parseJsonRaw, he]
    rw [parseJson, hraw]

/-- C1 (witness): the loader applied to a missing file. -/
theorem c1_loader_errors_witness :
    parseJson ([] : FS) "a.json" = .error (.invalidJson "a.json") :=
  (c1_loader_errors_are_invalid_json ([] : FS) "a.json").2 (.ioError "a.json") rfl

/-- C2 (counterexample): `SHA256_RE` carries the `i` flag on the whole
regex, so `SHA256:` + 64 zeros is accepted although its prefix is not the
exact lowercase `sha256:` the claim requires. -/
theorem c2_digest_prefix_counterexample :
    shaTest shaUpper = true ∧ shaClaim shaUpper = false ∧
    startsWithS shaUpper "sha256:" = false := by
  refine ⟨by decide, by decide, by decide⟩

/-- C2 (amended): the digest check accepts exactly the strings whose
ASCII-case-folded code points are `sha256:` followed by exactly 64
lowercase-hex code points — the 64-character hex run may be lowercase or
uppercase, and so may the `sha256:` prefix. -/
theorem c2_digest_check_amended (s : String) : shaTest s = true ↔ ShaAccepts s :=
  shaTest_iff s

/-- C2 (witness): the canonical lowercase digest form is accepted. -/
theorem c2_digest_check_witness : ShaAccepts ("sha256:" ++ zeros64) :=
  (c2_digest_check_amended ("sha256:" ++ zeros64)).mp (by decide)

/-- C3: a successful validation run has, for every model file, the path
component after the first `models` segment equal (as JS `===`) to the
document's `modality` field; and on the scenario tree
`models/vision/bar/model.json` with `modality: "text"` the run exits 1
with the modality-mismatch message. -/
theorem c3_modality_folder :
    (∀ (dc : String → Bool) (fs : FS) (args : List String) (out : List String × Nat),
      cmdValidateModels dc fs args = .ok out →
      ∀ mf ∈ modelFilesOf fs args, ∀ m, parseJson fs mf = .ok m →
        jsEqOptStr (folderModality mf) (getField m "modality") = true) ∧
    runValidate dcC fsC3 ["--root", "repo"] =
      ⟨1, [], ["modality folder mismatch for org/bar"]⟩ := by
  constructor
  · intro dc fs args out hok mf hmf m hm
    have h := modelFile_ok_of_run_ok dc fs args out hok mf hmf
    obtain ⟨m', hm', -, -, -, -, -, -, hfolder, -⟩ :=
      (validateModelFile_ok_iff dc fs (versionFilesOf fs args) mf).mp h
    rw [hm] at hm'
    injection hm' with he
    rw [← he] at hfolder
    exact hfolder
  · rfl

/-- C3 (witness): the general part applied to the validating tree. -/
theorem c3_modality_folder_witness :
    jsEqOptStr (folderModality "repo/models/text/foo/model.json")
      (getField mFoo "modality") = true :=
  c3_modality_folder.1 dcC fsOK ["--root", "repo"]
    (["OK: models registry validation passed."], 0) rfl
    "repo/models/text/foo/model.json" (by decide) mFoo rfl

/-- C4: a successful run has, for every model file, a non-empty set of
version files prefixed by the model's `versions` directory with the
expected `versions/<model.version>.json` among them; and on the scenario
tree whose model declares `1.1.0` with no `versions/1.1.0.json`, the run
exits 1 naming the missing expected file. -/
theorem c4_expected_version_file :
    (∀ (dc : String → Bool) (fs : FS) (args : List String) (out : List String × Nat),
      cmdValidateModels dc fs args = .ok out →
      ∀ mf ∈ modelFilesOf fs args, ∀ m, parseJson fs mf = .ok m →
        (matchingOf (versionFilesOf fs args) mf).length > 0 ∧
        (matchingOf (versionFilesOf fs args) mf).contains (expectedOf mf m) = true) ∧
    runValidate dcC fsC4 ["--root", "repo"] =
      ⟨1, [], ["missing versions/1.1.0.json for model org/foo"]⟩ := by
  constructor
  · intro dc fs args out hok mf hmf m hm
    have h := modelFile_ok_of_run_ok dc fs args out hok mf hmf
    obtain ⟨m', hm', -, -, -, -, -, -, -, -, hlen, hcont, -⟩ :=
      (validateModelFile_ok_iff dc fs (versionFilesOf fs args) mf).mp h
    rw [hm] at hm'
    injection hm' with he
    rw [← he] at hcont
    exact ⟨hlen, hcont⟩
  · rfl

/-- C4 (witness): the general part applied to the validating tree. -/
theorem c4_expected_version_file_witness :
    (matchingOf (versionFilesOf fsOK ["--root", "repo"])
      "repo/models/text/foo/model.json").length > 0 ∧
    (matchingOf (versionFilesOf fsOK ["--root", "repo"])
      "repo/models/text/foo/model.json").contains
        (expectedOf "repo/models/text/foo/model.json" mFoo) = true :=
  c4_expected_version_file.1 dcC fsOK ["--root", "repo"]
    (["OK: models registry validation passed."], 0) rfl
    "repo/models/text/foo/model.json" (by decide) mFoo rfl

/-- C5: a successful run has every version file under each model's
`versions` directory — not only the expected one — parsed, with `modelId`
strict-equal to the model's `id`, a SemVer-valid `version`, a filename
stem equal to the `version` field, and a well-formed `artifact.digest`
when present; and a tree whose only flaw is a bad digest in a non-current
version file fails with the digest message (showing the first violated
check aborts the run). -/
theorem c5_every_version_file_checked :
    (∀ (dc : String → Bool) (fs : FS) (args : List String) (out : List String × Nat),
      cmdValidateModels dc fs args = .ok out →
      ∀ mf ∈ modelFilesOf fs args, ∀ m, parseJson fs mf = .ok m →
      ∀ vf ∈ matchingOf (versionFilesOf fs args) mf,
        ∃ v, parseJson fs vf = .ok v ∧
          jsEqJson (getField v "modelId") (getField m "id") = true ∧
          versionFieldOk v = true ∧
          jsEqOptStr (stemOf vf) (getField v "version") = true ∧
          digestCheckOk v = true) ∧
    runValidate dcC fsC5 ["--root", "repo"] =
      ⟨1, [], ["artifact.digest invalid: repo/models/text/foo/versions/0.9.0.json"]⟩ := by
  constructor
  · intro dc fs args out hok mf hmf m hm vf hvf
    have h := modelFile_ok_of_run_ok dc fs args out hok mf hmf
    obtain ⟨m', hm', -, -, -, -, -, -, -, -, -, -, hvers⟩ :=
      (validateModelFile_ok_iff dc fs (versionFilesOf fs args) mf).mp h
    rw [hm] at hm'
    injection hm' with he
    subst he
    have hv := (validateVersions_ok_iff fs m (matchingOf (versionFilesOf fs args) mf)).mp
      hvers vf hvf
    exact (validateVersionFile_ok_iff fs m vf).mp hv
  · rfl

/-- C5 (witness): the general part applied to the validating tree and its
single version file. -/
theorem c5_every_version_file_checked_witness :
    ∃ v, parseJson fsOK "repo/models/text/foo/versions/1.0.0.json" = .ok v ∧
      jsEqJson (getField v "modelId") (getField mFoo "id") = true ∧
      versionFieldOk v = true ∧
      jsEqOptStr (stemOf "repo/models/text/foo/versions/1.0.0.json")
        (getField v "version") = true ∧
      digestCheckOk v = true :=
  c5_every_version_file_checked.1 dcC fsOK ["--root", "repo"]
    (["OK: models registry validation passed."], 0) rfl
    "repo/models/text/foo/model.json" (by decide) mFoo rfl
    "repo/models/text/foo/versions/1.0.0.json" (by decide)

/-- C6: the SemVer check accepts exactly the strings
`MAJOR.MINOR.PATCH[-prerelease][+buildmetadata]` with each component a
non-empty digit run (no leading-zero restriction) and the optional parts
non-empty runs over alphanumerics, dots and hyphens, anchored start to
end; missing components, non-numeric components and trailing garbage are
rejected. -/
theorem c6_semver_check_exact (s : String) : semverTest s = true ↔ SemVerAccepts s :=
  semverTest_iff s

/-- C6 (witness): a full-form SemVer string is accepted. -/
theorem c6_semver_check_witness : SemVerAccepts "1.2.3-rc.1+build.5" :=
  (c6_semver_check_exact "1.2.3-rc.1+build.5").mp (by decide)

/-- C7: when the walk of `<root>/models` yields no file ending in
`model.json`, `validate models` exits 1 with the fixed
"no model.json entries found" message, whatever else the tree contains —
before any per-file check runs. -/
theorem c7_zero_model_files (dc : String → Bool) (fs : FS) (args : List String)
    (h : (modelFilesOf fs args).length = 0) :
    runValidate dc fs args = ⟨1, [], ["no model.json entries found under models/"]⟩ := by
  rw [runValidate, cmdValidateModels_no_models dc fs args h]
  rfl

/-- C7 (witness): a `models` tree holding one non-model file. -/
theorem c7_zero_model_files_witness :
    runValidate dcC fsC7 ["--root", "repo"] =
      ⟨1, [], ["no model.json entries found under models/"]⟩ :=
  c7_zero_model_files dcC fsC7 ["--root", "repo"] (by decide)

/-- C8: validation is deterministic over an unchanged filesystem: two runs
with the same arguments on the same tree produce the same exit code, the
same output and the same error output.  (The embedded run is a pure
function of the tree and the arguments, as the source reads nothing
else.) -/
theorem c8_validation_deterministic (dc : String → Bool) (fs : FS) (args : List String)
    (r1 r2 : RunOut) (h1 : r1 = runValidate dc fs args) (h2 : r2 = runValidate dc fs args) :
    r1.exitCode = r2.exitCode ∧ r1.stdout = r2.stdout ∧ r1.stderr = r2.stderr := by
  subst h1; subst h2
  exact ⟨rfl, rfl, rfl⟩

/-- C8 (witness): two runs on the validating tree. -/
theorem c8_validation_deterministic_witness :
    (runValidate dcC fsOK ["--root", "repo"]).exitCode =
      (runValidate dcC fsOK ["--root", "repo"]).exitCode ∧
    (runValidate dcC fsOK ["--root", "repo"]).stdout =
      (runValidate dcC fsOK ["--root", "repo"]).stdout ∧
    (runValidate dcC fsOK ["--root", "repo"]).stderr =
      (runValidate dcC fsOK ["--root", "repo"]).stderr :=
  c8_validation_deterministic dcC fsOK ["--root", "repo"] _ _ rfl rfl

/-- C10: with `--help` or `-h` anywhere in the arguments, or an empty
argument list, the tool prints the usage text and exits 0 without invoking
any command handler — the outcome is independent of the command table,
even when a valid command name is also present. -/
theorem c10_help_short_circuit (cmds : String → Option (List String → RunOut))
    (args : List String)
    (h : (args.isEmpty || args.contains "--help" || args.contains "-h") = true) :
    mainApp cmds args = ⟨0, [helpText], []⟩ := by
  rw [mainApp, if_pos h]

/-- C10 (witness): `validate models -h` with an arbitrary command table. -/
theorem c10_help_short_circuit_witness :
    mainApp (fun _ => none) ["validate", "models", "-h"] = ⟨0, [helpText], []⟩ :=
  c10_help_short_circuit (fun _ => none) ["validate", "models", "-h"] (by decide)

/-! ## List and string lemmas for the scaffold/validate round trip -/

theorem sw_app (xs ys : List Char) : startsWithL (xs ++ ys) xs = true := by
  induction xs with
  | nil => cases ys <;> rfl
  | cons c cs ih => simp [startsWithL, ih]

theorem sw_cancel (p a b : List Char) : startsWithL (p ++ a) (p ++ b) = startsWithL a b := by
  induction p with
  | nil => rfl
  | cons c cs ih => simp [startsWithL, ih]

theorem sw_long (ps xs : List Char) (h : ps.length ≤ xs.length) (ys : List Char) :
    startsWithL (xs ++ ys) ps = startsWithL xs ps := by
  induction ps generalizing xs with
  | nil => cases xs <;> cases ys <;> rfl
  | cons p ps ih =>
    cases xs with
    | nil => simp at h
    | cons x xs =>
      show (x == p && startsWithL (xs ++ ys) ps) = (x == p && startsWithL xs ps)
      rw [ih xs (by simpa using h)]

theorem ew_app (xs ys : List Char) : endsWithL (xs ++ ys) ys = true := by
  rw [endsWithL, List.reverse_append]
  exact sw_app ys.reverse xs.reverse

theorem replTail_app (xs suf rep : List Char) :
    replTail (xs ++ suf) suf rep = xs ++ rep := by
  rw [replTail, if_pos (ew_app xs suf)]
  congr 1
  rw [List.length_append, Nat.add_sub_cancel, List.take_left]

theorem splitBy_ne_nil (p : Char → Bool) (l : List Char) : splitBy p l ≠ [] := by
  cases l with
  | nil => simp [splitBy]
  | cons c rest =>
    rw [splitBy]
    rcases h : splitBy p rest with _ | ⟨g, gs⟩
    · simp
    · by_cases hc : p c = true <;> simp [hc]

theorem splitBy_append_sep {p : Char → Bool} {xs : List Char}
    (hxs : ∀ c ∈ xs, p c = false) {y : Char} (hy : p y = true) (ys : List Char) :
    splitBy p (xs ++ y :: ys) = xs :: splitBy p ys := by
  induction xs with
  | nil =>
    rw [List.nil_append, splitBy]
    rcases h : splitBy p ys with _ | ⟨g, gs⟩
    · exact absurd h (splitBy_ne_nil p ys)
    · show (if p y = true then [] :: g :: gs else (y :: g) :: gs) = [] :: g :: gs
      rw [if_pos hy]
  | cons c cs ih =>
    have hc : p c = false := hxs c (by simp)
    have ih2 := ih (fun d hd => hxs d (by simp [hd]))
    rw [List.cons_append, splitBy, ih2]
    show (if p c = true then [] :: cs :: splitBy p ys else
      (c :: cs) :: splitBy p ys) = (c :: cs) :: splitBy p ys
    rw [if_neg (by rw [hc]; exact Bool.false_ne_true)]

theorem splitBy_no_sep {p : Char → Bool} {xs : List Char}
    (hxs : ∀ c ∈ xs, p c = false) : splitBy p xs = [xs] := by
  induction xs with
  | nil => rfl
  | cons c cs ih =>
    have hc : p c = false := hxs c (by simp)
    have ih2 := ih (fun d hd => hxs d (by simp [hd]))
    rw [splitBy, ih2]
    show (if p c = true then [[], cs] else [c :: cs]) = [c :: cs]
    rw [if_neg (by rw [hc]; exact Bool.false_ne_true)]

theorem hasSub_of {n h a b : List Char} (he : h = a ++ (n ++ b)) : hasSub n h = true := by
  induction a generalizing h with
  | nil =>
    subst he
    cases n with
    | nil => cases b <;> rfl
    | cons c cs =>
      rw [List.nil_append, List.cons_append, hasSub, Bool.or_eq_true]
      exact Or.inl (by rw [← List.cons_append]; exact sw_app (c :: cs) b)
  | cons x xs ih =>
    subst he
    cases n with
    | nil => cases xs ++ ([] ++ b) <;> rfl
    | cons c cs =>
      rw [List.cons_append, hasSub, Bool.or_eq_true]
      exact Or.inr (ih rfl)

theorem map_id_of {f : Char → Char} {l : List Char} (h : ∀ c ∈ l, f c = c) :
    l.map f = l := by
  induction l with
  | nil => rfl
  | cons c cs ih => simp [h c (by simp), ih (fun d hd => h d (by simp [hd]))]

theorem normSlash_eq_self {s : String} (h : ∀ c ∈ s.data, (c == '\\') = false) :
    normSlash s = s := by
  rw [normSlash]
  rw [map_id_of (fun c hc => by rw [if_neg (by rw [h c hc]; exact Bool.false_ne_true)])]

theorem str_eq_of_data {a b : String} (h : a.data = b.data) : a = b := by
  cases a; cases b; exact congrArg String.mk h

theorem str_ne_of_data {a b : String} (h : a.data ≠ b.data) : (a == b) = false :=
  beq_eq_false_iff_ne.mpr (fun hx => h (by rw [hx]))

theorem append_ne_of_tail_ne {p a b : List Char} (h : a ≠ b) : p ++ a ≠ p ++ b :=
  fun hx => h (List.append_cancel_left hx)

theorem bool_cases (b : Bool) : b = false ∨ b = true := by
  cases b
  · exact Or.inl rfl
  · exact Or.inr rfl

theorem nonBlank_ne_empty {s : String} (h : nonBlankS s = true) : (s != "") = true := by
  rcases bool_cases (s == "") with h2 | h2
  · simp [bne, h2]
  · rw [beq_iff_eq] at h2
    subst h2
    exact absurd h (by decide)

theorem not_flag_beq {s t : String} (hs : startsWithS s "--" = false)
    (ht : startsWithS t "--" = true) : (s == t) = false := by
  rcases bool_cases (s == t) with h | h
  · exact h
  · rw [beq_iff_eq] at h
    subst h
    rw [hs] at ht
    cases ht

/-! ## Facts about SemVer-valid strings needed for the round trip -/

theorem semver_all_chars {v : String} (h : semverTest v = true) :
    ∀ c ∈ v.data, svCharOk c = true ∨ c = '+' := by
  obtain ⟨A, B, C, t, heq, -, -, -, hA, hB, hC, htail⟩ := (semverTest_iff v).mp h
  have hdigit : ∀ d : Char, d.isDigit = true → svCharOk d = true := by
    intro d hd
    rw [svCharOk, hd]
    rfl
  have hsv : ∀ x ∈ t, svCharOk x = true ∨ x = '+' := by
    intro x hx
    rcases htail with rfl | ⟨pre, rfl, -, hall⟩ | ⟨pre, bld, rfl, -, -, hpall, hball⟩ |
      ⟨bld, rfl, -, hball⟩
    · cases hx
    · rcases List.mem_cons.mp hx with rfl | hx
      · exact Or.inl (by decide)
      · exact Or.inl ((svCharOk_iff x).mpr (hall x hx))
    · rcases List.mem_append.mp hx with hx | hx
      · rcases List.mem_cons.mp hx with rfl | hx
        · exact Or.inl (by decide)
        · exact Or.inl ((svCharOk_iff x).mpr (hpall x hx))
      · rcases List.mem_cons.mp hx with rfl | hx
        · exact Or.inr rfl
        · exact Or.inl ((svCharOk_iff x).mpr (hball x hx))
    · rcases List.mem_cons.mp hx with rfl | hx
      · exact Or.inr rfl
      · exact Or.inl ((svCharOk_iff x).mpr (hball x hx))
  intro c hc
  rw [heq] at hc
  rcases List.mem_append.mp hc with hc | hc
  · exact Or.inl (hdigit c (hA c hc))
  · rcases List.mem_cons.mp hc with rfl | hc
    · exact Or.inl (by decide)
    · rcases List.mem_append.mp hc with hc | hc
      · exact Or.inl (hdigit c (hB c hc))
      · rcases List.mem_cons.mp hc with rfl | hc
        · exact Or.inl (by decide)
        · rcases List.mem_append.mp hc with hc | hc
          · exact Or.inl (hdigit c (hC c hc))
          · exact hsv c hc

theorem semver_no_seps {v : String} (h : semverTest v = true) :
    ∀ c ∈ v.data, (c == '/') = false ∧ (c == '\\') = false := by
  intro c hc
  rcases semver_all_chars h c hc with hsv | rfl
  · constructor
    · rcases bool_cases (c == '/') with h2 | h2
      · exact h2
      · rw [beq_iff_eq] at h2; subst h2; exact absurd hsv (by decide)
    · rcases bool_cases (c == '\\') with h2 | h2
      · exact h2
      · rw [beq_iff_eq] at h2; subst h2; exact absurd hsv (by decide)
  · exact ⟨by decide, by decide⟩

theorem semver_head_digit {v : String} (h : semverTest v = true) :
    ∃ d ds, v.data = d :: ds ∧ d.isDigit = true := by
  obtain ⟨A, B, C, t, heq, hAne, -, -, hA, -, -, -⟩ := (semverTest_iff v).mp h
  rcases A with _ | ⟨d, ds⟩
  · exact absurd rfl hAne
  · exact ⟨d, ds ++ ('.' :: (B ++ ('.' :: (C ++ t)))), by rw [heq]; rfl,
      hA d (by simp)⟩

theorem semver_len5 {v : String} (h : semverTest v = true) : 5 ≤ v.data.length := by
  obtain ⟨A, B, C, t, heq, hAne, hBne, hCne, -, -, -, -⟩ := (semverTest_iff v).mp h
  rw [heq]
  simp only [List.length_append, List.length_cons]
  have hA : 1 ≤ A.length := List.length_pos.mpr hAne
  have hB : 1 ≤ B.length := List.length_pos.mpr hBne
  have hC : 1 ≤ C.length := List.length_pos.mpr hCne
  omega

theorem semver_ne_empty {v : String} (h : semverTest v = true) : (v != "") = true := by
  obtain ⟨d, ds, hd, -⟩ := semver_head_digit h
  rcases bool_cases (v == "") with h2 | h2
  · simp [bne, h2]
  · rw [beq_iff_eq] at h2
    subst h2
    cases hd

theorem semver_not_flag {v : String} (h : semverTest v = true) :
    startsWithS v "--" = false := by
  obtain ⟨d, ds, hd, hdig⟩ := semver_head_digit h
  rw [startsWithS, hd]
  show (startsWithL (d :: ds) ('-' :: '-' :: [])) = false
  rw [startsWithL]
  have : (d == '-') = false := by
    rcases bool_cases (d == '-') with h2 | h2
    · exact h2
    · rw [beq_iff_eq] at h2; subst h2; cases hdig
  rw [this]
  rfl

/-! ## The scaffold-then-validate round trip -/

/-- The `init model` invocation for a flag set, rooted at `repo`. -/
def initArgsC (modality slug id version : String) : List String :=
  ["--modality", modality, "--slug", slug, "--id", id, "--version", version, "--root", "repo"]

/-- The scaffold directory `repo/models/<modality>/<slug>`. -/
def scafBase (modality slug : String) : String :=
  joinP (joinP (joinP "repo" "models") modality) slug

/-- The three files `init model` writes on an empty root. -/
def scafFS (nowIso modality slug id version : String) : FS :=
  [(joinP (scafBase modality slug) "model.json",
    .jsonData (modelJsonOf id slug modality "contrib:unknown" "Unknown" nowIso version)),
   (joinP (joinP (scafBase modality slug) "versions") (version ++ ".json"),
    .jsonData (versionJsonOf id version nowIso)),
   (joinP (scafBase modality slug) "PERFORMANCE.md",
    .textData (perfTextOf id nowIso))]

/-- C9 (counterexample): the flag set modality `text`, slug `demo`,
id `" "` (a single space — non-empty, as the claim requires), version
`0.1.0` scaffolds successfully, but validating the scaffolded root exits 1:
the scaffolder only rejects an *empty* id while the validator requires a
non-blank one. -/
theorem c9_roundtrip_counterexample :
    ∃ fs' o, cmdInitModel isoC [] (initArgsC "text" "demo" " " "0.1.0") = .ok (fs', o, 0) ∧
      runValidate dcC fs' ["--root", "repo"] =
        ⟨1, [], ["model.id required: repo/models/text/demo/model.json"]⟩ := by
  refine ⟨scafFS isoC "text" "demo" " " "0.1.0", ["Scaffolded: " ++ scafBase "text" "demo"],
    rfl, rfl⟩

theorem beq_false_symm {a b : String} (h : (a == b) = false) : (b == a) = false :=
  beq_eq_false_iff_ne.mpr (Ne.symm (beq_eq_false_iff_ne.mp h))

theorem data_append (a b : String) : (a ++ b).data = a.data ++ b.data := rfl

/-- Peel one common directory segment off a path equality. -/
theorem peel {p : List Char} {c : Char} {a b : List Char} (hab : a = b → False) :
    p ++ c :: a = p ++ c :: b → False := by
  intro hx
  have h2 := List.append_cancel_left hx
  injection h2 with _ h3
  exact hab h3

/-- The scaffolded `model.json` path, in canonical segment form. -/
theorem mpData (modality slug : String) :
    (joinP (joinP (joinP (joinP "repo" "models") modality) slug) "model.json").data =
      "repo".data ++ '/' :: ("models".data ++ '/' :: (modality.data ++ '/' ::
        (slug.data ++ '/' :: "model.json".data))) := by
  simp only [joinP, data_append, List.append_assoc]
  rfl

/-- The scaffolded version-file path, in canonical segment form. -/
theorem vpData (modality slug version : String) :
    (joinP (joinP (joinP (joinP (joinP "repo" "models") modality) slug) "versions")
      (version ++ ".json")).data =
      "repo".data ++ '/' :: ("models".data ++ '/' :: (modality.data ++ '/' ::
        (slug.data ++ '/' :: ("versions".data ++ '/' ::
          (version.data ++ ".json".data))))) := by
  simp only [joinP, data_append, List.append_assoc]
  rfl

/-- The scaffolded `PERFORMANCE.md` path, in canonical segment form. -/
theorem ppData (modality slug : String) :
    (joinP (joinP (joinP (joinP "repo" "models") modality) slug) "PERFORMANCE.md").data =
      "repo".data ++ '/' :: ("models".data ++ '/' :: (modality.data ++ '/' ::
        (slug.data ++ '/' :: "PERFORMANCE.md".data))) := by
  simp only [joinP, data_append, List.append_assoc]
  rfl

theorem mp_ne_vp (modality slug version : String) :
    ((joinP (joinP (joinP (joinP "repo" "models") modality) slug) "model.json") ==
      (joinP (joinP (joinP (joinP (joinP "repo" "models") modality) slug) "versions")
        (version ++ ".json"))) = false := by
  apply str_ne_of_data
  rw [mpData, vpData]
  exact peel (peel (peel (peel (fun h => by
    injection h with h1 _
    exact absurd h1 (by decide)))))

theorem mp_ne_pp (modality slug : String) :
    ((joinP (joinP (joinP (joinP "repo" "models") modality) slug) "model.json") ==
      (joinP (joinP (joinP (joinP "repo" "models") modality) slug) "PERFORMANCE.md")) =
      false := by
  apply str_ne_of_data
  rw [mpData, ppData]
  exact peel (peel (peel (peel (fun h => by
    injection h with h1 _
    exact absurd h1 (by decide)))))

theorem vp_ne_pp (modality slug version : String) :
    ((joinP (joinP (joinP (joinP (joinP "repo" "models") modality) slug) "versions")
      (version ++ ".json")) ==
      (joinP (joinP (joinP (joinP "repo" "models") modality) slug) "PERFORMANCE.md")) =
      false := by
  apply str_ne_of_data
  rw [vpData, ppData]
  exact peel (peel (peel (peel (fun h => by
    injection h with h1 _
    exact absurd h1 (by decide)))))

/-- On a scaffold flag set, `cmdInitModel` writes exactly the three
scaffold files and succeeds. -/
theorem init_scaffolds (nowIso modality slug id version : String)
    (hmod : modality = "text" ∨ modality = "vision" ∨ modality = "multimodal")
    (hslug_nb : nonBlankS slug = true) (hid_nb : nonBlankS id = true)
    (hver : semverTest version = true)
    (hslug_flag : startsWithS slug "--" = false)
    (hid_flag : startsWithS id "--" = false) :
    cmdInitModel nowIso [] (initArgsC modality slug id version) =
      .ok (scafFS nowIso modality slug id version,
        ["Scaffolded: " ++ scafBase modality slug], 0) := by
  have hms : startsWithS modality "--" = false := by
    rcases hmod with rfl | rfl | rfl <;> decide
  have hvs : startsWithS version "--" = false := semver_not_flag hver
  have nf : ∀ t : String, startsWithS t "--" = true →
      (modality == t) = false ∧ (slug == t) = false ∧ (id == t) = false ∧
      (version == t) = false :=
    fun t ht => ⟨not_flag_beq hms ht, not_flag_beq hslug_flag ht,
      not_flag_beq hid_flag ht, not_flag_beq hvs ht⟩
  have nf2 := nf "--slug" (by decide)
  have nf3 := nf "--id" (by decide)
  have nf4 := nf "--name" (by decide)
  have nf5 := nf "--owner" (by decide)
  have nf6 := nf "--owner-name" (by decide)
  have nf7 := nf "--version" (by decide)
  have nf8 := nf "--root" (by decide)
  have hslug_ne : (slug == "") = false := by
    have h := nonBlank_ne_empty hslug_nb
    rcases bool_cases (slug == "") with h2 | h2
    · exact h2
    · rw [bne, h2] at h
      exact absurd h (by decide)
  have hid_ne : (id == "") = false := by
    have h := nonBlank_ne_empty hid_nb
    rcases bool_cases (id == "") with h2 | h2
    · exact h2
    · rw [bne, h2] at h
      exact absurd h (by decide)
  have hver_ne : (version == "") = false := by
    have h := semver_ne_empty hver
    rcases bool_cases (version == "") with h2 | h2
    · exact h2
    · rw [bne, h2] at h
      exact absurd h (by decide)
  have hAmod : argValue (initArgsC modality slug id version) "--modality" none =
      some modality := by
    simp [initArgsC, argValue, idxFind, nth]
  have hAslug : argValue (initArgsC modality slug id version) "--slug" none = some slug := by
    simp [initArgsC, argValue, idxFind, nth, nf2.1]
  have hAid : argValue (initArgsC modality slug id version) "--id" none = some id := by
    simp [initArgsC, argValue, idxFind, nth, nf3.1, nf3.2.1]
  have hAname : ∀ fb, argValue (initArgsC modality slug id version) "--name" fb = fb := by
    intro fb
    simp [initArgsC, argValue, idxFind, nth, nf4.1, nf4.2.1, nf4.2.2.1, nf4.2.2.2]
  have hAowner : ∀ fb, argValue (initArgsC modality slug id version) "--owner" fb = fb := by
    intro fb
    simp [initArgsC, argValue, idxFind, nth, nf5.1, nf5.2.1, nf5.2.2.1, nf5.2.2.2]
  have hAownerName : ∀ fb,
      argValue (initArgsC modality slug id version) "--owner-name" fb = fb := by
    intro fb
    simp [initArgsC, argValue, idxFind, nth, nf6.1, nf6.2.1, nf6.2.2.1, nf6.2.2.2]
  have hAversion : argValue (initArgsC modality slug id version) "--version" (some "0.1.0") =
      some version := by
    simp [initArgsC, argValue, idxFind, nth, nf7.1, nf7.2.1, nf7.2.2.1]
  have hAroot : argValue (initArgsC modality slug id version) "--root" (some ".") =
      some "repo" := by
    simp [initArgsC, argValue, idxFind, nth, nf8.1, nf8.2.1, nf8.2.2.1, nf8.2.2.2]
  have hmodgood : (modality != "" &&
      (modality == "text" || modality == "vision" || modality == "multimodal")) = true := by
    rcases hmod with rfl | rfl | rfl <;> decide
  have hslug_good : (slug != "") = true := by rw [bne, hslug_ne]; rfl
  have hid_good : (id != "") = true := by rw [bne, hid_ne]; rfl
  have hver_good : (version != "" && semverTest version) = true := by
    rw [bne, hver_ne, hver]
    rfl
  simp [cmdInitModel, hAmod, hAslug, hAid, hAname, hAowner, hAownerName, hAversion,
    hslug_ne, rootArg, hAroot, hmodgood, hslug_good, hid_good, hver_good,
    fsWrite, scafFS, scafBase, mp_ne_vp, mp_ne_pp, vp_ne_pp]

theorem mk_data (s : String) : String.mk s.data = s := rfl

theorem mem_seg_append {P : Char → Prop} {A B : List Char}
    (hA : ∀ c ∈ A, P c) (hB : ∀ c ∈ B, P c) : ∀ c ∈ A ++ B, P c := by
  intro c hc
  rcases List.mem_append.mp hc with h | h
  · exact hA c h
  · exact hB c h

theorem mem_seg_cons {P : Char → Prop} {c0 : Char} {B : List Char}
    (h0 : P c0) (hB : ∀ c ∈ B, P c) : ∀ c ∈ c0 :: B, P c := by
  intro c hc
  rcases List.mem_cons.mp hc with rfl | h
  · exact h0
  · exact hB c h

theorem ew_false_of_suffix {t suf : List Char} (hlen : t.length ≤ suf.length)
    (h : startsWithL suf.reverse t.reverse = false) (p : List Char) :
    endsWithL (p ++ suf) t = false := by
  rw [endsWithL, List.reverse_append,
    sw_long t.reverse suf.reverse (by simpa using hlen) p.reverse]
  exact h

theorem scaffold_validates (dc : String → Bool) (nowIso modality slug id version : String)
    (hmod : modality = "text" ∨ modality = "vision" ∨ modality = "multimodal")
    (hslug_nb : nonBlankS slug = true) (hid_nb : nonBlankS id = true)
    (hver : semverTest version = true)
    (hslug_seg : ∀ c ∈ slug.data, (c == '/') = false ∧ (c == '\\') = false)
    (hver_model : endsWithS version "model" = false)
    (hdc : dc nowIso = true) :
    cmdValidateModels dc (scafFS nowIso modality slug id version) ["--root", "repo"] =
      .ok (["OK: models registry validation passed."], 0) := by
  have hmod_seg : ∀ c ∈ modality.data, (c == '/') = false ∧ (c == '\\') = false := by
    rcases hmod with rfl | rfl | rfl <;> decide
  have hver_seg : ∀ c ∈ version.data, (c == '/') = false ∧ (c == '\\') = false :=
    semver_no_seps hver
  -- canonical data shapes
  have hMPd : (joinP (scafBase modality slug) "model.json").data =
      "repo".data ++ '/' :: ("models".data ++ '/' :: (modality.data ++ '/' ::
        (slug.data ++ '/' :: "model.json".data))) := mpData modality slug
  have hVPd : (joinP (joinP (scafBase modality slug) "versions") (version ++ ".json")).data =
      "repo".data ++ '/' :: ("models".data ++ '/' :: (modality.data ++ '/' ::
        (slug.data ++ '/' :: ("versions".data ++ '/' :: (version.data ++ ".json".data))))) :=
    vpData modality slug version
  have hPPd : (joinP (scafBase modality slug) "PERFORMANCE.md").data =
      "repo".data ++ '/' :: ("models".data ++ '/' :: (modality.data ++ '/' ::
        (slug.data ++ '/' :: "PERFORMANCE.md".data))) := ppData modality slug
  -- prefix-suffix decompositions
  have hMP2 : (joinP (scafBase modality slug) "model.json").data =
      ("repo".data ++ '/' :: ("models".data ++ '/' :: (modality.data ++ '/' ::
        (slug.data ++ ['/'])))) ++ "model.json".data := by
    rw [hMPd]; simp
  have hPP2 : (joinP (scafBase modality slug) "PERFORMANCE.md").data =
      ("repo".data ++ '/' :: ("models".data ++ '/' :: (modality.data ++ '/' ::
        (slug.data ++ ['/'])))) ++ "PERFORMANCE.md".data := by
    rw [hPPd]; simp
  have hVP2 : (joinP (joinP (scafBase modality slug) "versions") (version ++ ".json")).data =
      ("repo".data ++ '/' :: ("models".data ++ '/' :: (modality.data ++ '/' ::
        (slug.data ++ '/' :: ("versions".data ++ ['/']))))) ++
        (version.data ++ ".json".data) := by
    rw [hVPd]; simp
  have hVP3 : (joinP (joinP (scafBase modality slug) "versions") (version ++ ".json")).data =
      (("repo".data ++ '/' :: ("models".data ++ '/' :: (modality.data ++ '/' ::
        (slug.data ++ '/' :: ("versions".data ++ ['/']))))) ++ version.data) ++
        ".json".data := by
    rw [hVP2]; simp
  -- ends-with machinery
  have hew_mp_mj : endsWithS (joinP (scafBase modality slug) "model.json") "model.json" =
      true := by
    rw [endsWithS, hMP2]
    exact ew_app _ _
  have hew_mp_j : endsWithS (joinP (scafBase modality slug) "model.json") ".json" = true := by
    rw [endsWithS]
    have h : (joinP (scafBase modality slug) "model.json").data =
        (("repo".data ++ '/' :: ("models".data ++ '/' :: (modality.data ++ '/' ::
          (slug.data ++ ['/'])))) ++ "model".data) ++ ".json".data := by
      rw [hMP2, (by decide : ("model.json".data : List Char) = "model".data ++ ".json".data)]
      simp
    rw [h]
    exact ew_app _ _
  have hew_vp_j : endsWithS
      (joinP (joinP (scafBase modality slug) "versions") (version ++ ".json")) ".json" =
      true := by
    rw [endsWithS, hVP3]
    exact ew_app _ _
  have hew_vp_mj : endsWithS
      (joinP (joinP (scafBase modality slug) "versions") (version ++ ".json")) "model.json" =
      false := by
    rw [endsWithS, hVP2]
    apply ew_false_of_suffix
    · have h5 := semver_len5 hver
      simp at h5 ⊢
      omega
    · rw [List.reverse_append,
        (by decide : ("model.json".data.reverse : List Char) =
          ".json".data.reverse ++ "model".data.reverse), sw_cancel]
      exact hver_model
  have hew_pp_mj : endsWithS (joinP (scafBase modality slug) "PERFORMANCE.md") "model.json" =
      false := by
    rw [endsWithS, hPP2]
    exact ew_false_of_suffix (by decide) (by decide) _
  have hew_pp_j : endsWithS (joinP (scafBase modality slug) "PERFORMANCE.md") ".json" =
      false := by
    rw [endsWithS, hPP2]
    exact ew_false_of_suffix (by decide) (by decide) _
  -- walk and the model-file list
  have hswMP : startsWithS (joinP (scafBase modality slug) "model.json")
      "repo/models/" = true := by
    rw [startsWithS, hMPd]
    have h : "repo".data ++ '/' :: ("models".data ++ '/' :: (modality.data ++ '/' ::
        (slug.data ++ '/' :: "model.json".data))) =
        "repo/models/".data ++ (modality.data ++ '/' ::
          (slug.data ++ '/' :: "model.json".data)) := rfl
    rw [h]
    exact sw_app _ _
  have hswVP : startsWithS
      (joinP (joinP (scafBase modality slug) "versions") (version ++ ".json"))
      "repo/models/" = true := by
    rw [startsWithS, hVPd]
    have h : "repo".data ++ '/' :: ("models".data ++ '/' :: (modality.data ++ '/' ::
        (slug.data ++ '/' :: ("versions".data ++ '/' :: (version.data ++ ".json".data))))) =
        "repo/models/".data ++ (modality.data ++ '/' ::
          (slug.data ++ '/' :: ("versions".data ++ '/' ::
            (version.data ++ ".json".data)))) := rfl
    rw [h]
    exact sw_app _ _
  have hswPP : startsWithS (joinP (scafBase modality slug) "PERFORMANCE.md")
      "repo/models/" = true := by
    rw [startsWithS, hPPd]
    have h : "repo".data ++ '/' :: ("models".data ++ '/' :: (modality.data ++ '/' ::
        (slug.data ++ '/' :: "PERFORMANCE.md".data))) =
        "repo/models/".data ++ (modality.data ++ '/' ::
          (slug.data ++ '/' :: "PERFORMANCE.md".data)) := rfl
    rw [h]
    exact sw_app _ _
  have hwalk : walk (scafFS nowIso modality slug id version)
      (joinP (rootArg ["--root", "repo"]) "models") =
      [joinP (scafBase modality slug) "model.json",
       joinP (joinP (scafBase modality slug) "versions") (version ++ ".json"),
       joinP (scafBase modality slug) "PERFORMANCE.md"] := by
    have hdir : joinP (rootArg ["--root", "repo"]) "models" = "repo/models" := rfl
    rw [hdir]
    simp [walk, scafFS, List.filter, hswMP, hswVP, hswPP]
  have hmf : modelFilesOf (scafFS nowIso modality slug id version) ["--root", "repo"] =
      [joinP (scafBase modality slug) "model.json"] := by
    rw [modelFilesOf, hwalk]
    simp [List.filter, hew_mp_mj, hew_vp_mj, hew_pp_mj]
  -- versions-segment and versions-directory facts
  have hvsVP : hasVersionsSegS
      (joinP (joinP (scafBase modality slug) "versions") (version ++ ".json")) = true := by
    rw [hasVersionsSegS, Bool.or_eq_true]
    left
    have he : (joinP (joinP (scafBase modality slug) "versions") (version ++ ".json")).data =
        ("repo".data ++ '/' :: ("models".data ++ '/' :: (modality.data ++ '/' ::
          (slug.data ++ ['/'])))) ++
          ("versions/".data ++ (version.data ++ ".json".data)) := by
      rw [hVPd]
      show "repo".data ++ '/' :: ("models".data ++ '/' :: (modality.data ++ '/' ::
          (slug.data ++ '/' :: ("versions".data ++ '/' :: (version.data ++ ".json".data))))) =
        ("repo".data ++ '/' :: ("models".data ++ '/' :: (modality.data ++ '/' ::
          (slug.data ++ ['/'])))) ++
          ("versions".data ++ '/' :: (version.data ++ ".json".data))
      simp
    exact hasSub_of he
  have hvdird : (versionsDirOf (joinP (scafBase modality slug) "model.json")).data =
      ("repo".data ++ '/' :: ("models".data ++ '/' :: (modality.data ++ '/' ::
        (slug.data ++ ['/'])))) ++ "versions".data := by
    show replTail (joinP (scafBase modality slug) "model.json").data
      "model.json".data "versions".data = _
    rw [hMP2, replTail_app]
  have hperf : perfPathOf (joinP (scafBase modality slug) "model.json") =
      joinP (scafBase modality slug) "PERFORMANCE.md" := by
    apply str_eq_of_data
    show replTail (joinP (scafBase modality slug) "model.json").data
      "model.json".data "PERFORMANCE.md".data = _
    rw [hMP2, replTail_app, hPP2]
  -- no backslashes anywhere
  have hmod_bs : ∀ c ∈ modality.data, (c == '\\') = false := fun c hc => (hmod_seg c hc).2
  have hslug_bs : ∀ c ∈ slug.data, (c == '\\') = false := fun c hc => (hslug_seg c hc).2
  have hver_bs : ∀ c ∈ version.data, (c == '\\') = false := fun c hc => (hver_seg c hc).2
  have hnbMP : ∀ c ∈ (joinP (scafBase modality slug) "model.json").data,
      (c == '\\') = false := by
    rw [hMPd]
    exact mem_seg_append (by decide) (mem_seg_cons (by decide) (mem_seg_append (by decide)
      (mem_seg_cons (by decide) (mem_seg_append hmod_bs (mem_seg_cons (by decide)
        (mem_seg_append hslug_bs (mem_seg_cons (by decide) (by decide))))))))
  have hnbVP : ∀ c ∈ (joinP (joinP (scafBase modality slug) "versions")
      (version ++ ".json")).data, (c == '\\') = false := by
    rw [hVPd]
    exact mem_seg_append (by decide) (mem_seg_cons (by decide) (mem_seg_append (by decide)
      (mem_seg_cons (by decide) (mem_seg_append hmod_bs (mem_seg_cons (by decide)
        (mem_seg_append hslug_bs (mem_seg_cons (by decide) (mem_seg_append (by decide)
          (mem_seg_cons (by decide) (mem_seg_append hver_bs (by decide)))))))))))
  have hnbVdir : ∀ c ∈ (versionsDirOf (joinP (scafBase modality slug) "model.json")).data,
      (c == '\\') = false := by
    rw [hvdird]
    exact mem_seg_append (mem_seg_append (by decide) (mem_seg_cons (by decide)
      (mem_seg_append (by decide) (mem_seg_cons (by decide) (mem_seg_append hmod_bs
        (mem_seg_cons (by decide) (mem_seg_append hslug_bs (by decide)))))))) (by decide)
  have hnsMP : normSlash (joinP (scafBase modality slug) "model.json") =
      joinP (scafBase modality slug) "model.json" := normSlash_eq_self hnbMP
  have hnsVP : normSlash (joinP (joinP (scafBase modality slug) "versions")
      (version ++ ".json")) =
      joinP (joinP (scafBase modality slug) "versions") (version ++ ".json") :=
    normSlash_eq_self hnbVP
  have hnsVdir : normSlash (versionsDirOf (joinP (scafBase modality slug) "model.json")) =
      versionsDirOf (joinP (scafBase modality slug) "model.json") :=
    normSlash_eq_self hnbVdir
  -- prefix tests against the versions directory
  have hswMPdir : startsWithS (joinP (scafBase modality slug) "model.json")
      (versionsDirOf (joinP (scafBase modality slug) "model.json")) = false := by
    rw [startsWithS, hMP2, hvdird, sw_cancel]
    decide
  have hswVPdir : startsWithS
      (joinP (joinP (scafBase modality slug) "versions") (version ++ ".json"))
      (versionsDirOf (joinP (scafBase modality slug) "model.json")) = true := by
    rw [startsWithS, hvdird]
    have h : (joinP (joinP (scafBase modality slug) "versions") (version ++ ".json")).data =
        (("repo".data ++ '/' :: ("models".data ++ '/' :: (modality.data ++ '/' ::
          (slug.data ++ ['/'])))) ++ "versions".data) ++
          ('/' :: (version.data ++ ".json".data)) := by
      rw [hVPd]
      simp
    rw [h]
    exact sw_app _ _
  -- the matching version files
  have hmatch : matchingOf (versionFilesOf (scafFS nowIso modality slug id version)
      ["--root", "repo"]) (joinP (scafBase modality slug) "model.json") =
      [joinP (joinP (scafBase modality slug) "versions") (version ++ ".json")] := by
    rw [versionFilesOf, hwalk]
    rcases bool_cases (hasVersionsSegS (joinP (scafBase modality slug) "model.json")) with
      hvs | hvs
    · simp [List.filter, hvs, hvsVP, hew_mp_j, hew_vp_j, hew_pp_j, matchingOf, hnsMP, hnsVP,
        hnsVdir, hswVPdir, hswMPdir]
    · simp [List.filter, hvs, hvsVP, hew_mp_j, hew_vp_j, hew_pp_j, matchingOf, hnsMP, hnsVP,
        hnsVdir, hswVPdir, hswMPdir]
  -- the expected version-file path is the written one
  have htf : tmplField (modelJsonOf id slug modality "contrib:unknown" "Unknown" nowIso
      version) "version" = version := by
    simp [tmplField, getField, modelJsonOf, List.lookup]
  have hEdata : (joinP (versionsDirOf (joinP (scafBase modality slug) "model.json"))
      (version ++ ".json")).data =
      (joinP (joinP (scafBase modality slug) "versions") (version ++ ".json")).data := by
    show ((versionsDirOf (joinP (scafBase modality slug) "model.json")).data ++ "/".data) ++
      (version.data ++ ".json".data) = _
    rw [hvdird, hVPd]
    show ((("repo".data ++ '/' :: ("models".data ++ '/' :: (modality.data ++ '/' ::
      (slug.data ++ ['/'])))) ++ "versions".data) ++ ['/']) ++
      (version.data ++ ".json".data) =
      "repo".data ++ '/' :: ("models".data ++ '/' :: (modality.data ++ '/' ::
        (slug.data ++ '/' :: ("versions".data ++ '/' :: (version.data ++ ".json".data)))))
    simp
  have hexp : expectedOf (joinP (scafBase modality slug) "model.json")
      (modelJsonOf id slug modality "contrib:unknown" "Unknown" nowIso version) =
      joinP (joinP (scafBase modality slug) "versions") (version ++ ".json") := by
    rw [expectedOf, htf]
    have hnbE : ∀ c ∈ (joinP (versionsDirOf (joinP (scafBase modality slug) "model.json"))
        (version ++ ".json")).data, (c == '\\') = false := by
      rw [hEdata]
      exact hnbVP
    rw [normSlash_eq_self hnbE]
    exact str_eq_of_data hEdata
  -- parsing the two documents
  have hneVPMP : ((joinP (joinP (scafBase modality slug) "versions") (version ++ ".json")) ==
      (joinP (scafBase modality slug) "model.json")) = false :=
    beq_false_symm (mp_ne_vp modality slug version)
  have hnePPMP : ((joinP (scafBase modality slug) "PERFORMANCE.md") ==
      (joinP (scafBase modality slug) "model.json")) = false :=
    beq_false_symm (mp_ne_pp modality slug)
  have hnePPVP : ((joinP (scafBase modality slug) "PERFORMANCE.md") ==
      (joinP (joinP (scafBase modality slug) "versions") (version ++ ".json"))) = false :=
    beq_false_symm (vp_ne_pp modality slug version)
  have hparseM : parseJson (scafFS nowIso modality slug id version)
      (joinP (scafBase modality slug) "model.json") =
      .ok (modelJsonOf id slug modality "contrib:unknown" "Unknown" nowIso version) := by
    simp [parseJson, parseJsonRaw, readFile, scafFS, List.lookup, jsparse]
  have hparseV : parseJson (scafFS nowIso modality slug id version)
      (joinP (joinP (scafBase modality slug) "versions") (version ++ ".json")) =
      .ok (versionJsonOf id version nowIso) := by
    simp [parseJson, parseJsonRaw, readFile, scafFS, List.lookup, jsparse, hneVPMP]
  -- the folder-modality derivation
  have hmod_nosep : ∀ c ∈ modality.data, isSep c = false := by
    intro c hc
    show (c == '/' || c == '\\') = false
    rw [(hmod_seg c hc).1, (hmod_seg c hc).2]
    rfl
  have hslug_nosep : ∀ c ∈ slug.data, isSep c = false := by
    intro c hc
    show (c == '/' || c == '\\') = false
    rw [(hslug_seg c hc).1, (hslug_seg c hc).2]
    rfl
  have hsplitMP : splitSepsS (joinP (scafBase modality slug) "model.json") =
      ["repo", "models", modality, slug, "model.json"] := by
    rw [splitSepsS, hMPd]
    have s1 : splitBy isSep ("repo".data ++ '/' :: ("models".data ++ '/' ::
        (modality.data ++ '/' :: (slug.data ++ '/' :: "model.json".data)))) =
        "repo".data :: splitBy isSep ("models".data ++ '/' ::
          (modality.data ++ '/' :: (slug.data ++ '/' :: "model.json".data))) :=
      splitBy_append_sep (by decide) (by decide) _
    have s2 : splitBy isSep ("models".data ++ '/' ::
        (modality.data ++ '/' :: (slug.data ++ '/' :: "model.json".data))) =
        "models".data :: splitBy isSep (modality.data ++ '/' ::
          (slug.data ++ '/' :: "model.json".data)) :=
      splitBy_append_sep (by decide) (by decide) _
    have s3 : splitBy isSep (modality.data ++ '/' ::
        (slug.data ++ '/' :: "model.json".data)) =
        modality.data :: splitBy isSep (slug.data ++ '/' :: "model.json".data) :=
      splitBy_append_sep hmod_nosep (by decide) _
    have s4 : splitBy isSep (slug.data ++ '/' :: "model.json".data) =
        slug.data :: splitBy isSep "model.json".data :=
      splitBy_append_sep hslug_nosep (by decide) _
    have s5 : splitBy isSep "model.json".data = ["model.json".data] :=
      splitBy_no_sep (by decide)
    rw [s1, s2, s3, s4, s5]
    simp [mk_data]
  have hfolder : jsEqOptStr (folderModality (joinP (scafBase modality slug) "model.json"))
      (getField (modelJsonOf id slug modality "contrib:unknown" "Unknown" nowIso version)
        "modality") = true := by
    rw [folderModality, hsplitMP]
    simp [idxFind, nth, getField, modelJsonOf, List.lookup, jsEqOptStr]
  -- the filename stem of the version file
  have hver_noslash : ∀ c ∈ version.data, (c == '/') = false := fun c hc => (hver_seg c hc).1
  have hsplitVP : splitSlashS
      (joinP (joinP (scafBase modality slug) "versions") (version ++ ".json")) =
      ["repo", "models", modality, slug, "versions",
        String.mk (version.data ++ ".json".data)] := by
    rw [splitSlashS, hVPd]
    have s1 : splitBy (fun c => c == '/') ("repo".data ++ '/' :: ("models".data ++ '/' ::
        (modality.data ++ '/' :: (slug.data ++ '/' :: ("versions".data ++ '/' ::
          (version.data ++ ".json".data)))))) =
        "repo".data :: splitBy (fun c => c == '/') ("models".data ++ '/' ::
          (modality.data ++ '/' :: (slug.data ++ '/' :: ("versions".data ++ '/' ::
            (version.data ++ ".json".data))))) :=
      splitBy_append_sep (by decide) (by decide) _
    have s2 : splitBy (fun c => c == '/') ("models".data ++ '/' ::
        (modality.data ++ '/' :: (slug.data ++ '/' :: ("versions".data ++ '/' ::
          (version.data ++ ".json".data))))) =
        "models".data :: splitBy (fun c => c == '/') (modality.data ++ '/' ::
          (slug.data ++ '/' :: ("versions".data ++ '/' ::
            (version.data ++ ".json".data)))) :=
      splitBy_append_sep (by decide) (by decide) _
    have s3 : splitBy (fun c => c == '/') (modality.data ++ '/' ::
        (slug.data ++ '/' :: ("versions".data ++ '/' :: (version.data ++ ".json".data)))) =
        modality.data :: splitBy (fun c => c == '/') (slug.data ++ '/' ::
          ("versions".data ++ '/' :: (version.data ++ ".json".data))) :=
      splitBy_append_sep (fun c hc => (hmod_seg c hc).1) (by decide) _
    have s4 : splitBy (fun c => c == '/') (slug.data ++ '/' ::
        ("versions".data ++ '/' :: (version.data ++ ".json".data))) =
        slug.data :: splitBy (fun c => c == '/') ("versions".data ++ '/' ::
          (version.data ++ ".json".data)) :=
      splitBy_append_sep (fun c hc => (hslug_seg c hc).1) (by decide) _
    have s5 : splitBy (fun c => c == '/') ("versions".data ++ '/' ::
        (version.data ++ ".json".data)) =
        "versions".data :: splitBy (fun c => c == '/') (version.data ++ ".json".data) :=
      splitBy_append_sep (by decide) (by decide) _
    have s6 : splitBy (fun c => c == '/') (version.data ++ ".json".data) =
        [version.data ++ ".json".data] :=
      splitBy_no_sep (mem_seg_append hver_noslash (by decide))
    rw [s1, s2, s3, s4, s5, s6]
    simp [mk_data]
  have hstem : jsEqOptStr
      (stemOf (joinP (joinP (scafBase modality slug) "versions") (version ++ ".json")))
      (getField (versionJsonOf id version nowIso) "version") = true := by
    rw [stemOf, hsplitVP]
    have hrt : replaceTailS (String.mk (version.data ++ ".json".data)) ".json" "" =
        version := by
      apply str_eq_of_data
      show replTail (version.data ++ ".json".data) ".json".data [] = version.data
      rw [replTail_app, List.append_nil]
    simp [List.getLast?, hrt, jsEqOptStr, getField, versionJsonOf, List.lookup]
  -- assemble
  have hsha : shaTest ("sha256:" ++ zeros64) = true := by decide
  rw [cmdValidateModels_ok_iff]
  refine ⟨rfl, ?_, ?_⟩
  · rw [hmf]
    simp
  · rw [validateAll_ok_iff]
    intro mf hmf2
    rw [hmf] at hmf2
    obtain rfl := List.mem_singleton.mp hmf2
    rw [validateModelFile_ok_iff]
    refine ⟨modelJsonOf id slug modality "contrib:unknown" "Unknown" nowIso version,
      hparseM, ?_, ?_, ?_, ?_, ?_, ?_, hfolder, ?_, ?_, ?_, ?_⟩
    · simp [strFieldNonBlank, getField, modelJsonOf, List.lookup, hid_nb]
    · simp [strFieldNonBlank, getField, modelJsonOf, List.lookup, hslug_nb]
    · rcases hmod with rfl | rfl | rfl <;>
        simp [modalityFieldOk, getField, modelJsonOf, List.lookup]
    · simp [ownerOk, getField, modelJsonOf, List.lookup]
    · simp [createdAtOk, getField, modelJsonOf, List.lookup, hdc]
    · simp [versionFieldOk, getField, modelJsonOf, List.lookup, hver]
    · rw [hperf]
      simp [scafFS, List.lookup, hnePPMP, hnePPVP]
    · rw [hmatch]
      simp
    · rw [hmatch, hexp]
      simp
    · rw [hmatch, validateVersions_ok_iff]
      intro vf hvf2
      obtain rfl := List.mem_singleton.mp hvf2
      rw [validateVersionFile_ok_iff]
      refine ⟨versionJsonOf id version nowIso, hparseV, ?_, ?_, hstem, ?_⟩
      · simp [jsEqJson, getField, versionJsonOf, modelJsonOf, List.lookup]
      · simp [versionFieldOk, getField, versionJsonOf, List.lookup, hver]
      · simp [digestCheckOk, digestOf, getField, versionJsonOf, List.lookup, digestStrOk,
          hsha]


/-- C9 (amended): the scaffold-then-validate round trip succeeds for every
flag set with modality in the enum, slug and id non-blank under JS `trim()`
(containing a character outside the ECMAScript whitespace set, so not made
only of spaces, tabs, line terminators, NBSP, ZWNBSP or other Unicode
space separators) and not flag-shaped (not starting with `--`),
slug a plain path segment (no slash or backslash, not `.` or `..`),
version SemVer-valid and not ending in `model` (else its version file is
classified as a model file), provided the scaffold timestamp passes the
date check: `init model` on an empty root then `validate models` on the
same root exits 0 with the success line. -/
theorem c9_roundtrip_amended (dc : String → Bool) (nowIso modality slug id version : String)
    (hmod : modality = "text" ∨ modality = "vision" ∨ modality = "multimodal")
    (hslug_nb : nonBlankS slug = true)
    (hid_nb : nonBlankS id = true)
    (hver : semverTest version = true)
    (hslug_seg : ∀ c ∈ slug.data, (c == '/') = false ∧ (c == '\\') = false)
    (_hslug_dot : slug ≠ "." ∧ slug ≠ "..")
    (hver_model : endsWithS version "model" = false)
    (hslug_flag : startsWithS slug "--" = false)
    (hid_flag : startsWithS id "--" = false)
    (hdc : dc nowIso = true) :
    ∃ fs' o, cmdInitModel nowIso [] (initArgsC modality slug id version) = .ok (fs', o, 0) ∧
      runValidate dc fs' ["--root", "repo"] =
        ⟨0, ["OK: models registry validation passed."], []⟩ := by
  refine ⟨scafFS nowIso modality slug id version,
    ["Scaffolded: " ++ scafBase modality slug],
    init_scaffolds nowIso modality slug id version hmod hslug_nb hid_nb hver hslug_flag
      hid_flag, ?_⟩
  rw [runValidate, scaffold_validates dc nowIso modality slug id version hmod hslug_nb
    hid_nb hver hslug_seg hver_model hdc]

/-- C9 (witness): a plain flag set round-trips. -/
theorem c9_roundtrip_witness :
    ∃ fs' o, cmdInitModel isoC [] (initArgsC "text" "demo" "org/demo" "0.1.0") =
        .ok (fs', o, 0) ∧
      runValidate dcC fs' ["--root", "repo"] =
        ⟨0, ["OK: models registry validation passed."], []⟩ :=
  c9_roundtrip_amended dcC isoC "text" "demo" "org/demo" "0.1.0" (Or.inl rfl) (by decide) (by decide)
    (by decide) (by decide) (by decide) (by decide) (by decide) (by decide) (by decide)

end ThynkCLI
